import Mathlib

/-!
Verification of the `ai-recruiter` core (`criteria_generator.py`, `app.py`)
against its natural-language specification.

The Python source is shallowly embedded: every function of the repository
that the claims touch is translated into an executable Lean definition.
Python exceptions become an explicit `PyErr` error type carried by
`Except`; the remote Gemini call is a function parameter
`String → Except String String` (prompt in, raw text or fault message
out), so that theorems can quantify over every possible remote behaviour.
Strings are modelled by Lean `String` (lists of characters); numeric
string parsing (`float(...)`) is modelled exactly, covering decimal
literals with optional sign, fraction and exponent — the binary rounding
of Python floats, `nan`/`inf` literals and underscore separators are
outside the model.  A parsed decimal is carried as an unnormalized pair
`(m, k)` denoting the rational `m / 10 ^ k`, so that every arithmetic
step is plain integer arithmetic; `decVal` interprets the pair as a
rational in theorem statements.
-/

/-- Model of the Python exception values the two source files can raise.
Each constructor carries the exception message (`str(e)`). -/
inductive PyErr where
  | valueError (msg : String) : PyErr
  | keyError (key : String) : PyErr
  | attributeError (msg : String) : PyErr
  | typeError (msg : String) : PyErr
  | exception (msg : String) : PyErr
deriving DecidableEq

/-- The text `str(e)` of a modelled exception.  For `KeyError` Python
renders the repr of the key; the quotes are kept here. -/
def PyErr.msg : PyErr → String
  | .valueError m => m
  | .keyError k => "\x27" ++ k ++ "\x27"
  | .attributeError m => m
  | .typeError m => m
  | .exception m => m

/-- Whether the exception is a `ValueError` — the class the source uses
for every validation/parse failure (the spec names these
`ValidationError` and `ParseError`). -/
def PyErr.isValueError : PyErr → Bool
  | .valueError _ => true
  | _ => false

/-- ASCII whitespace recognised by the model of `str.strip()` and of
`float(...)` (Python additionally strips some Unicode space characters,
which no claim exercises). -/
def pyIsSpace (c : Char) : Bool :=
  c = ' ' || c = '\t' || c = '\n' || c = '\r' || c = '\x0b' || c = '\x0c'

/-- Model of Python `str.strip()` on the character list. -/
def pyStripChars (l : List Char) : List Char :=
  ((l.dropWhile pyIsSpace).reverse.dropWhile pyIsSpace).reverse

/-- Model of Python `str.strip()`. -/
def pyStrip (s : String) : String :=
  String.mk (pyStripChars s.data)

/-- Model of the Python emptiness test `not s or not s.strip()` used for
the input checks of `generate_criteria`. -/
def pyBlank (s : String) : Bool :=
  s = "" || pyStrip s = ""

/-- Decimal digit character for a value below ten. -/
def digitChar (n : Nat) : Char := Char.ofNat (48 + n)

/-- Is the character an ASCII decimal digit. -/
def isDigitChar (c : Char) : Bool := 48 ≤ c.toNat && c.toNat ≤ 57

/-- Numeric value of a digit character. -/
def digitVal (c : Char) : Nat := c.toNat - 48

/-- Little-endian decimal digits of a natural number; the first argument
is recursion fuel (any fuel at least `n` is enough). -/
def natDigitsRev : Nat → Nat → List Char
  | 0, _ => []
  | fuel + 1, n => if n = 0 then [] else digitChar (n % 10) :: natDigitsRev fuel (n / 10)

/-- Decimal rendering of a natural number, as Python prints it. -/
def natChars (n : Nat) : List Char :=
  if n = 0 then ['0'] else (natDigitsRev n n).reverse

/-- Decimal rendering of an integer, as Python prints it. -/
def intChars (i : Int) : List Char :=
  if i < 0 then '-' :: natChars i.natAbs else natChars i.natAbs

/-- Decimal rendering of a natural number as a `String`. -/
def natStr (n : Nat) : String := String.mk (natChars n)

/-- Value of a big-endian digit character list. -/
def digitsVal (l : List Char) : Nat :=
  l.foldl (fun a c => 10 * a + digitVal c) 0

/-- The rational denoted by an unnormalized decimal pair `(m, k)`:
the value `m / 10 ^ k`.  Used in theorem statements; the executable
definitions stay on the integer pair. -/
def decVal (p : Int × Nat) : ℚ :=
  (p.1 : ℚ) / (10 : ℚ) ^ p.2

/-- Exact sum of two decimal pairs (common power-of-ten denominator,
left unnormalized). -/
def addDec (a b : Int × Nat) : Int × Nat :=
  (a.1 * (10 : Int) ^ b.2 + b.1 * (10 : Int) ^ a.2, a.2 + b.2)

/-- Model of Python `float(...)` restricted to finite decimal literals:
optional surrounding whitespace, optional sign, digits with an optional
fractional part (at least one digit overall, possibly only on one side
of the point), and an optional decimal exponent.  Returns the exact
value as a decimal pair, or `none` when the text is not such a
literal. -/
def pyFloat (s : String) : Option (Int × Nat) :=
  let l := pyStripChars s.data
  let (neg, l) : Bool × List Char :=
    match l with
    | '-' :: r => (true, r)
    | '+' :: r => (false, r)
    | r => (false, r)
  let ipart := l.takeWhile isDigitChar
  let l := l.dropWhile isDigitChar
  let (fpart, l) : List Char × List Char :=
    match l with
    | '.' :: r => (r.takeWhile isDigitChar, r.dropWhile isDigitChar)
    | r => ([], r)
  if ipart.length + fpart.length = 0 then none
  else
    let mag : Nat := digitsVal ipart * 10 ^ fpart.length + digitsVal fpart
    let m : Int := if neg then -(mag : Int) else (mag : Int)
    match l with
    | [] => some (m, fpart.length)
    | e :: r =>
      if e = 'e' || e = 'E' then
        let (eneg, r) : Bool × List Char :=
          match r with
          | '-' :: r2 => (true, r2)
          | '+' :: r2 => (false, r2)
          | r2 => (false, r2)
        let edig := r.takeWhile isDigitChar
        let rest := r.dropWhile isDigitChar
        if edig.length = 0 || rest ≠ [] then none
        else if eneg then some (m, fpart.length + digitsVal edig)
        else some (m * (10 : Int) ^ digitsVal edig, fpart.length)
      else none

/-- Values produced by parsing JSON text, as Python `json.loads` builds
them (`None`, `bool`, numbers, `str`, `list`, `dict`).  Numeric literals
are modelled as integers; fractional and exponent literals (Python
floats) are outside the model.  Objects are association lists in source
order; Python dictionaries cannot hold duplicate keys, and no claim
exercises them. -/
inductive Json where
  | null : Json
  | bool (b : Bool) : Json
  | num (n : Int) : Json
  | str (s : String) : Json
  | arr (xs : List Json) : Json
  | obj (kvs : List (String × Json)) : Json

/-- Python type name of a parsed JSON value, as it appears in
`AttributeError` / `TypeError` messages. -/
def Json.pyType : Json → String
  | .null => "NoneType"
  | .bool _ => "bool"
  | .num _ => "int"
  | .str _ => "str"
  | .arr _ => "list"
  | .obj _ => "dict"

/-- Keys of a JSON object in order (empty for non-objects). -/
def Json.keys : Json → List String
  | .obj kvs => kvs.map Prod.fst
  | _ => []

/-- Dictionary lookup `d[k]` on an object's association list. -/
def jsonGet (kvs : List (String × Json)) (k : String) : Option Json :=
  match kvs with
  | [] => none
  | (k', v) :: rest => if k' = k then some v else jsonGet rest k

mutual

/-- Model of Python `repr` on parsed JSON values, used only to render a
value inside an error message.  String escaping inside `repr` is not
modelled (no claim exercises it). -/
def pyRepr : Json → String
  | .null => "None"
  | .bool true => "True"
  | .bool false => "False"
  | .num n => String.mk (intChars n)
  | .str s => "\x27" ++ s ++ "\x27"
  | .arr xs => "[" ++ pyReprList xs ++ "]"
  | .obj kvs => "\x7b" ++ pyReprKVs kvs ++ "\x7d"

/-- Comma-separated reprs of list elements. -/
def pyReprList : List Json → String
  | [] => ""
  | [x] => pyRepr x
  | x :: y :: xs => pyRepr x ++ ", " ++ pyReprList (y :: xs)

/-- Comma-separated reprs of dictionary items. -/
def pyReprKVs : List (String × Json) → String
  | [] => ""
  | [(k, v)] => "\x27" ++ k ++ "\x27: " ++ pyRepr v
  | (k, v) :: p :: kvs => "\x27" ++ k ++ "\x27: " ++ pyRepr v ++ ", " ++ pyReprKVs (p :: kvs)

end

/-- Model of Python `str(...)` on parsed JSON values (used by f-string
interpolation): the identity on strings, `repr` otherwise. -/
def pyStr : Json → String
  | .str s => s
  | j => pyRepr j

/-- Whitespace accepted between JSON tokens by the `json.loads` model. -/
def isJsonWs (c : Char) : Bool :=
  c = ' ' || c = '\t' || c = '\n' || c = '\r'

/-- Drop leading JSON whitespace. -/
def skipWs : List Char → List Char
  | [] => []
  | c :: cs => if isJsonWs c then skipWs cs else c :: cs

/-- Consume an expected literal character sequence, returning the rest. -/
def expectLit : List Char → List Char → Option (List Char)
  | [], l => some l
  | _ :: _, [] => none
  | p :: ps, c :: cs => if c = p then expectLit ps cs else none

/-- Value of a hexadecimal digit character, if it is one. -/
def hexVal (c : Char) : Option Nat :=
  if 48 ≤ c.toNat ∧ c.toNat ≤ 57 then some (c.toNat - 48)
  else if 97 ≤ c.toNat ∧ c.toNat ≤ 102 then some (c.toNat - 87)
  else if 65 ≤ c.toNat ∧ c.toNat ≤ 70 then some (c.toNat - 55)
  else none

/-- Lowercase hexadecimal digit character for a value below sixteen. -/
def hexDigitChar (n : Nat) : Char :=
  if n < 10 then Char.ofNat (48 + n) else Char.ofNat (87 + n)

/-- Parse the body of a JSON string after the opening quote: the decoded
characters and the input following the closing quote.  The `\uXXXX`
escape yields the code unit directly; surrogate-pair recombination is
outside the model (the printer never emits such escapes). -/
def parseStringBody : List Char → Option (List Char × List Char)
  | [] => none
  | c :: cs =>
    if c = '"' then some ([], cs)
    else if c = '\\' then
      match cs with
      | [] => none
      | 'u' :: h1 :: h2 :: h3 :: h4 :: cs2 =>
        match hexVal h1, hexVal h2, hexVal h3, hexVal h4 with
        | some a, some b, some c3, some d =>
          (parseStringBody cs2).map
            (fun p => (Char.ofNat (((a * 16 + b) * 16 + c3) * 16 + d) :: p.1, p.2))
        | _, _, _, _ => none
      | e :: cs2 =>
        let decoded : Option Char :=
          if e = '"' then some '"'
          else if e = '\\' then some '\\'
          else if e = '/' then some '/'
          else if e = 'b' then some '\x08'
          else if e = 'f' then some '\x0c'
          else if e = 'n' then some '\n'
          else if e = 'r' then some '\r'
          else if e = 't' then some '\t'
          else none
        match decoded with
        | some d => (parseStringBody cs2).map (fun p => (d :: p.1, p.2))
        | none => none
    else if c.toNat < 32 then none
    else (parseStringBody cs).map (fun p => (c :: p.1, p.2))

/-- Parse a JSON numeric literal (integer grammar of the model).  The
leading-zero restriction of the JSON grammar is not modelled. -/
def parseNumber (l : List Char) : Option (Json × List Char) :=
  match l with
  | [] => none
  | c :: cs =>
    if c = '-' then
      let ds := cs.takeWhile isDigitChar
      if ds = [] then none
      else some (.num (-(digitsVal ds : Int)), cs.dropWhile isDigitChar)
    else
      let ds := (c :: cs).takeWhile isDigitChar
      if ds = [] then none
      else some (.num (digitsVal ds : Int), (c :: cs).dropWhile isDigitChar)

mutual

/-- Fueled recursive-descent parser for one JSON value: returns the value
and the unconsumed input.  Fuel at least `jsize` of the value is enough. -/
def parseVal : Nat → List Char → Option (Json × List Char)
  | 0, _ => none
  | fuel + 1, input =>
    match skipWs input with
    | [] => none
    | c :: cs =>
      if c = 'n' then (expectLit ['u', 'l', 'l'] cs).map (fun r => (.null, r))
      else if c = 't' then (expectLit ['r', 'u', 'e'] cs).map (fun r => (.bool true, r))
      else if c = 'f' then (expectLit ['a', 'l', 's', 'e'] cs).map (fun r => (.bool false, r))
      else if c = '"' then (parseStringBody cs).map (fun p => (.str (String.mk p.1), p.2))
      else if c = '[' then
        match skipWs cs with
        | ']' :: r => some (.arr [], r)
        | l => (parseItems fuel l).map (fun p => (.arr p.1, p.2))
      else if c = '\x7b' then
        match skipWs cs with
        | '\x7d' :: r => some (.obj [], r)
        | l => (parseMembers fuel l).map (fun p => (.obj p.1, p.2))
      else if c = '-' || isDigitChar c then parseNumber (c :: cs)
      else none

/-- Parse the elements of a non-empty JSON array, after the opening
bracket, up to and including the closing bracket. -/
def parseItems : Nat → List Char → Option (List Json × List Char)
  | 0, _ => none
  | fuel + 1, input =>
    match parseVal fuel input with
    | none => none
    | some (v, r) =>
      match skipWs r with
      | ',' :: r2 => (parseItems fuel r2).map (fun p => (v :: p.1, p.2))
      | ']' :: r2 => some ([v], r2)
      | _ => none

/-- Parse the members of a non-empty JSON object, after the opening
brace, up to and including the closing brace. -/
def parseMembers : Nat → List Char → Option (List (String × Json) × List Char)
  | 0, _ => none
  | fuel + 1, input =>
    match skipWs input with
    | '"' :: r =>
      match parseStringBody r with
      | none => none
      | some (k, r1) =>
        match skipWs r1 with
        | ':' :: r2 =>
          match parseVal fuel r2 with
          | none => none
          | some (v, r3) =>
            match skipWs r3 with
            | ',' :: r4 => (parseMembers fuel r4).map (fun p => ((String.mk k, v) :: p.1, p.2))
            | '\x7d' :: r4 => some ([(String.mk k, v)], r4)
            | _ => none
        | _ => none
    | _ => none

end

/-- Model of `json.loads`: parse one JSON value, allow trailing
whitespace, reject trailing garbage.  Returns `none` where Python raises
`json.JSONDecodeError`. -/
def json_loads (s : String) : Option Json :=
  match parseVal (2 * s.data.length + 2) s.data with
  | some (v, rest) => if skipWs rest = [] then some v else none
  | none => none

/-- Indentation emitted by `json.dumps(..., indent=2)` at nesting depth
`d`. -/
def indChars (d : Nat) : List Char := List.replicate (2 * d) ' '

/-- Escape one character the way `json.dumps` renders string contents.
Non-ASCII characters are emitted literally; the `ensure_ascii`
`\uXXXX` escaping of characters above `0x7f` is outside the model. -/
def escapeChar (c : Char) : List Char :=
  if c = '"' then ['\\', '"']
  else if c = '\\' then ['\\', '\\']
  else if c = '\n' then ['\\', 'n']
  else if c = '\t' then ['\\', 't']
  else if c = '\r' then ['\\', 'r']
  else if c = '\x08' then ['\\', 'b']
  else if c = '\x0c' then ['\\', 'f']
  else if c.toNat < 32 then
    ['\\', 'u', '0', '0', hexDigitChar (c.toNat / 16), hexDigitChar (c.toNat % 16)]
  else [c]

/-- Escape a character list and close the quote. -/
def escapeChars : List Char → List Char
  | [] => ['"']
  | c :: cs => escapeChar c ++ escapeChars cs

/-- Render a string as a quoted JSON string literal. -/
def escapeString (s : String) : List Char :=
  '"' :: escapeChars s.data

mutual

/-- Render a JSON value at nesting depth `d`, exactly as
`json.dumps(value, indent=2)` lays it out. -/
def printJson : Nat → Json → List Char
  | _, .null => ['n', 'u', 'l', 'l']
  | _, .bool true => ['t', 'r', 'u', 'e']
  | _, .bool false => ['f', 'a', 'l', 's', 'e']
  | _, .num n => intChars n
  | _, .str s => escapeString s
  | _, .arr [] => ['[', ']']
  | d, .arr (x :: xs) =>
    '[' :: '\n' ::
      (indChars (d + 1) ++ printJson (d + 1) x ++ printItemsTail (d + 1) xs ++
        '\n' :: (indChars d ++ [']']))
  | _, .obj [] => ['\x7b', '\x7d']
  | d, .obj (kv :: kvs) =>
    '\x7b' :: '\n' ::
      (indChars (d + 1) ++ printKV (d + 1) kv ++ printKVsTail (d + 1) kvs ++
        '\n' :: (indChars d ++ ['\x7d']))

/-- Render one object member `"key": value`. -/
def printKV : Nat → String × Json → List Char
  | d, (k, v) => escapeString k ++ ':' :: ' ' :: printJson d v

/-- Render the remaining array elements, each preceded by a comma,
newline and indentation. -/
def printItemsTail : Nat → List Json → List Char
  | _, [] => []
  | d, x :: xs => ',' :: '\n' :: (indChars d ++ printJson d x ++ printItemsTail d xs)

/-- Render the remaining object members, each preceded by a comma,
newline and indentation. -/
def printKVsTail : Nat → List (String × Json) → List Char
  | _, [] => []
  | d, kv :: kvs => ',' :: '\n' :: (indChars d ++ printKV d kv ++ printKVsTail d kvs)

end

/-- Model of `json.dumps(value, indent=2)` as called in `app.py`. -/
def json_dumps_indent2 (j : Json) : String :=
  String.mk (printJson 0 j)

/-- The text of the generation prompt before the interpolated job
description (`criteria_generator.py` lines 40-59). -/
def promptHeader : String :=
  "\n            You are an expert AI recruitment analyst.\n" ++
  "\n" ++
  "            Your task is to deeply analyze the following Job Description (JD) and generate a structured set of **selection criteria** that will be used to evaluate candidate resumes.\n" ++
  "\n" ++
  "            You must:\n" ++
  "            - Identify both **explicitly stated** and **implicitly expected** skills, experiences, or qualities that a strong candidate should demonstrate for this role.\n" ++
  "            - Assign a **\"Must-Have: Yes/No\"** flag to each, based on whether the criterion is essential or simply desirable.\n" ++
  "            - Assign a **weight (%)** to each, reflecting its relative importance in the role.\n" ++
  "            - Provide a clear and detailed **description** of what should be visible in a resume to demonstrate each criterion (e.g., tools, certifications, years of experience, domain exposure, soft skills, etc.).\n" ++
  "\n" ++
  "            Think like an experienced recruiter:\n" ++
  "            - What would you expect from top candidates even if not directly mentioned in the JD?\n" ++
  "            - Include domain-specific soft skills, work styles, or team collaboration expectations if relevant.\n" ++
  "            - Differentiate between mission-critical requirements and value-adding qualities.\n" ++
  "\n" ++
  "            ---\n" ++
  "\n" ++
  "            Job Description:\n" ++
  "            "

/-- The text of the generation prompt between the interpolated job
description and the interpolated user guidance. -/
def promptMiddle : String :=
  "\n" ++
  "\n" ++
  "            Additional Instructions (optional):\n" ++
  "            "

/-- The text of the generation prompt after the interpolated user
guidance (output-contract section, lines 63-80). -/
def promptFooter : String :=
  "\n" ++
  "\n" ++
  "            ---\n" ++
  "\n" ++
  "            Output Format:\n" ++
  "\n" ++
  "            Return a JSON array. Strictly follow this exact format:\n" ++
  "            [\n" ++
  "            \x7b\x7b\n" ++
  "                \"name\": \"Skill/Experience/Quality Name\",\n" ++
  "                \"must_have\": \"Yes/No\",\n" ++
  "                \"weight\": \"X%\",\n" ++
  "                \"description\": \"Explain how this should be demonstrated in the resume. Include tools, technologies, or evidence you expect to find.\"\n" ++
  "            \x7d\x7d,\n" ++
  "            ...\n" ++
  "            ]\n" ++
  "\n" ++
  "            Ensure the total of all weights is close to 100%. Do not include any explanations outside the JSON array.\n" ++
  "            "

/-- The prompt `generate_criteria` builds (its f-string, lines 40-80).
The doubled braces of the f-string are literal braces in the produced
text; `job_role` is received but never interpolated by the source. -/
def buildPrompt (job_role jd_text user_guidance : String) : String :=
  promptHeader ++ jd_text ++ promptMiddle ++ user_guidance ++ promptFooter

/-- Index of the first occurrence of a character, as Python `str.find`
locates it (`none` where Python returns -1). -/
def firstIdxOf (c : Char) : List Char → Option Nat
  | [] => none
  | x :: xs => if x = c then some 0 else (firstIdxOf c xs).map (· + 1)

/-- Index of the last occurrence of a character, as Python `str.rfind`
locates it (`none` where Python returns -1). -/
def lastIdxOf (c : Char) (l : List Char) : Option Nat :=
  (firstIdxOf c l.reverse).map (fun i => l.length - 1 - i)

/-- Placeholder for the `json.JSONDecodeError` diagnostic text that the
source interpolates into its invalid-JSON message; the json module's
diagnostic wording is not reproduced by the model. -/
def jsonDecodeDetail : String := ""

/-- Model of `CriteriaGenerator._extract_json_from_response` (lines
90-111).  The inner `ValueError`s are not `json.JSONDecodeError`s, so
they fall through to the `except Exception` handler and are re-raised
with the text `Error parsing response: ` prepended; a decode failure is
caught by the `except json.JSONDecodeError` handler instead. -/
def extract_json_from_response (response_text : String) : Except PyErr (List Json) :=
  let l := response_text.data
  match firstIdxOf '[' l, lastIdxOf ']' l with
  | some s, some e =>
    let json_str := String.mk ((l.drop s).take (e + 1 - s))
    match json_loads json_str with
    | none => .error (.valueError ("Invalid JSON format: " ++ jsonDecodeDetail))
    | some (.arr xs) => .ok xs
    | some _ => .error (.valueError "Error parsing response: Response is not a JSON array")
  | _, _ => .error (.valueError "Error parsing response: No JSON array found in response")

/-- The required fields of `_validate_criteria` (line 115), in the order
the source checks them. -/
def requiredKeys : List String := ["name", "must_have", "weight", "description"]

/-- First required key absent from the element, in check order. -/
def firstMissingKey (kvs : List (String × Json)) : List String → Option String
  | [] => none
  | k :: ks => if (jsonGet kvs k).isNone then some k else firstMissingKey kvs ks

/-- Model of the membership test `criterion[ 'must_have' ] in ['Yes', 'No']`:
only the strings themselves compare equal to the two literals. -/
def isYesNo : Json → Bool
  | .str s => s = "Yes" || s = "No"
  | _ => false

/-- Check one element the way the loop body of `_validate_criteria`
(lines 120-142) does, returning the exception it would raise.  The
out-of-range `ValueError` of line 140 is caught by the surrounding
`except ValueError` and re-raised as the invalid-format message, so both
the unparseable and the out-of-range weight produce that message.  A
non-string weight makes `weight_str.endswith` raise `AttributeError`.
The two `none` fallbacks for absent keys are unreachable: the missing-key
check has already passed. -/
def checkCriterion (i : Nat) (c : Json) : Option PyErr :=
  match c with
  | .obj kvs =>
    match firstMissingKey kvs requiredKeys with
    | some k =>
      some (.valueError ("Missing \x27" ++ k ++ "\x27 in criterion " ++ natStr (i + 1)))
    | none =>
      match jsonGet kvs "must_have" with
      | none => none
      | some mh =>
        if ¬ isYesNo mh then
          some (.valueError
            ("Invalid must_have value in criterion " ++ natStr (i + 1) ++ ": " ++ pyStr mh))
        else
          match jsonGet kvs "weight" with
          | none => none
          | some (.str w) =>
            if w.data.getLast? ≠ some '%' then
              some (.valueError
                ("Weight must end with \x27%\x27 in criterion " ++ natStr (i + 1)))
            else
              match pyFloat (String.mk w.data.dropLast) with
              | none =>
                some (.valueError ("Invalid weight format in criterion " ++ natStr (i + 1)))
              | some q =>
                if q.1 < 0 ∨ 100 * (10 : Int) ^ q.2 < q.1 then
                  some (.valueError ("Invalid weight format in criterion " ++ natStr (i + 1)))
                else none
          | some v =>
            some (.attributeError
              ("\x27" ++ v.pyType ++ "\x27 object has no attribute \x27endswith\x27"))
  | _ => some (.valueError ("Criterion " ++ natStr (i + 1) ++ " is not a dictionary"))

/-- First exception raised by the validation loop, scanning elements in
order with 0-based index `i`. -/
def firstCheckErr (i : Nat) : List Json → Option PyErr
  | [] => none
  | c :: rest =>
    match checkCriterion i c with
    | some e => some e
    | none => firstCheckErr (i + 1) rest

/-- Model of `CriteriaGenerator._validate_criteria` (lines 113-144):
reject an empty list, then scan the elements in order and raise at the
first violation; on success return the input list itself. -/
def validate_criteria (criteria : List Json) : Except PyErr (List Json) :=
  if criteria.isEmpty then .error (.valueError "No criteria generated")
  else
    match firstCheckErr 0 criteria with
    | some e => .error e
    | none => .ok criteria

/-- Model of `CriteriaGenerator.generate_criteria` (lines 22-88).  The
remote model is the function argument `complete` (prompt in, raw text or
fault message out).  The two input checks run before the `try` block, so
their `ValueError`s reach the caller untouched; everything inside the
`try` — the remote call, extraction and validation — is caught by
`except Exception` and re-raised as a generic `Exception` whose message
prepends `Error generating criteria: ` to the original message. -/
def generate_criteria (complete : String → Except String String)
    (job_role jd_text user_guidance : String) : Except PyErr (List Json) :=
  if pyBlank jd_text then .error (.valueError "Job description cannot be empty")
  else if pyBlank job_role then .error (.valueError "Job role cannot be empty")
  else
    match complete (buildPrompt job_role jd_text user_guidance) with
    | .error m => .error (.exception ("Error generating criteria: " ++ m))
    | .ok text =>
      match extract_json_from_response text with
      | .error e => .error (.exception ("Error generating criteria: " ++ e.msg))
      | .ok criteria =>
        match validate_criteria criteria with
        | .error e => .error (.exception ("Error generating criteria: " ++ e.msg))
        | .ok v => .ok v

/-- Dictionary access `criterion[key]` including the exceptions Python
raises when the element is not a dictionary (`TypeError`, message
approximated by type name) or the key is absent (`KeyError`). -/
def pyGetItem (c : Json) (k : String) : Except PyErr Json :=
  match c with
  | .obj kvs =>
    match jsonGet kvs k with
    | some v => .ok v
    | none => .error (.keyError k)
  | other => .error (.typeError ("\x27" ++ other.pyType ++ "\x27 object is not subscriptable"))

/-- Rounding of `f-string` formatting with `:.1f`, over the decimal-pair
model of the running total: round to the nearest tenth (ties round up in
the model; Python rounds the nearest binary double to even) and print
with exactly one fractional digit.  With the value `m / 10 ^ k`, the
rounded integer count of tenths is `⌊10 * value + 1/2⌋ =
(20 * m + 10 ^ k) / (2 * 10 ^ k)` with floor division. -/
def formatFixed1 (q : Int × Nat) : String :=
  let n : Int := (20 * q.1 + (10 : Int) ^ q.2) / (2 * (10 : Int) ^ q.2)
  let sign := if n < 0 then "-" else ""
  sign ++ natStr (n.natAbs / 10) ++ "." ++ natStr (n.natAbs % 10)

/-- The loop body of `format_criteria_for_display` (lines 154-163) over
the remaining elements: produces each element's display block and the
sum of the parsed weights, with 1-based index `i`.  The weight is read
and converted first, as the code does, so its exceptions fire before the
name lookup. -/
def formatBlocks (i : Nat) : List Json → Except PyErr (List String × (Int × Nat))
  | [] => .ok ([], (0, 0))
  | c :: rest =>
    match pyGetItem c "weight" with
    | .error e => .error e
    | .ok w =>
      match w with
      | .str ws =>
        match pyFloat (String.mk ws.data.dropLast) with
        | none =>
          .error (.valueError
            ("could not convert string to float: \x27" ++ String.mk ws.data.dropLast ++ "\x27"))
        | some q =>
          match pyGetItem c "name", pyGetItem c "must_have", pyGetItem c "description" with
          | .ok nm, .ok mh, .ok d =>
            let block :=
              "\n**" ++ natStr i ++ ". " ++ pyStr nm ++ "**\n- Must-Have: " ++ pyStr mh ++
                "\n- Weight: " ++ ws ++ "\n- Description: " ++ pyStr d ++ "\n"
            match formatBlocks (i + 1) rest with
            | .error e => .error e
            | .ok (bs, t) => .ok (block :: bs, addDec q t)
          | .error e, _, _ => .error e
          | _, .error e, _ => .error e
          | _, _, .error e => .error e
      | _ =>
        .error (.typeError
          ("float() argument must be a string or a real number, not \x27" ++ w.pyType ++ "\x27"))

/-- Model of the newline join `"\n".join(formatted)`. -/
def joinNL : List String → String
  | [] => ""
  | [b] => b
  | b :: b2 :: bs => b ++ "\n" ++ joinNL (b2 :: bs)

/-- Model of `CriteriaGenerator.format_criteria_for_display` (lines
146-168): an early return for an empty list, one block per criterion
joined by newlines, then the total-weight line. -/
def format_criteria_for_display (criteria : List Json) : Except PyErr String :=
  if criteria.isEmpty then .ok "No criteria generated"
  else
    match formatBlocks 1 criteria with
    | .error e => .error e
    | .ok (blocks, total) =>
      .ok (joinNL blocks ++ "\n\n**Total Weight: " ++ formatFixed1 total ++ "%**")

/-- The credential-failure message of `CriteriaGenerator.__init__`. -/
def noKeyMsg : String :=
  "No API key provided. Set GEMINI_API_KEY environment variable or provide key directly."

/-- Model of `CriteriaGenerator.__init__` (lines 9-20): resolve the key
as `api_key or os.getenv( 'GEMINI_API_KEY' )` — Python `or` skips an
empty (falsy) explicit argument — and fail when the result is `None` or
empty.  The inner `ValueError` is caught by the `except Exception`
handler and re-raised as a generic `Exception` with the initialization
message prepended.  `genai.configure` and the `GenerativeModel`
constructor only record local configuration and are modelled as
non-failing; no network interaction happens here. -/
def CriteriaGenerator.init (api_key env_gemini_api_key : Option String) : Except PyErr Unit :=
  let key : Option String :=
    match api_key with
    | some s => if s = "" then env_gemini_api_key else some s
    | none => env_gemini_api_key
  match key with
  | none => .error (.exception ("Failed to initialize Gemini model: " ++ noKeyMsg))
  | some s =>
    if s = "" then .error (.exception ("Failed to initialize Gemini model: " ++ noKeyMsg))
    else .ok ()

/-- The data `app.display_criteria` extracts from the stored criteria,
in extraction order; the Streamlit rendering around it (metric widgets,
colors, expanders, download buttons) is presentation and carries no
further data. -/
structure DisplayOut where
  priorities : List Json
  entries : List (Nat × Json × Json × Json)
  jsonExport : String
  textExport : String

/-- The summary loop of `display_criteria` (app.py lines 106-108): read
`criterion[ 'priority' ]` from every element, in order.  The per-value
tally built from these reads is presentation. -/
def collectPriorities : List Json → Except PyErr (List Json)
  | [] => .ok []
  | c :: rest =>
    match pyGetItem c "priority" with
    | .error e => .error e
    | .ok p =>
      match collectPriorities rest with
      | .error e => .error e
      | .ok ps => .ok (p :: ps)

/-- The rendering loop of `display_criteria` (app.py lines 123-153):
for each element, 1-indexed, read its priority, name and description. -/
def collectEntries (i : Nat) : List Json → Except PyErr (List (Nat × Json × Json × Json))
  | [] => .ok []
  | c :: rest =>
    match pyGetItem c "priority" with
    | .error e => .error e
    | .ok p =>
      match pyGetItem c "name", pyGetItem c "description" with
      | .ok nm, .ok d =>
        match collectEntries (i + 1) rest with
        | .error e => .error e
        | .ok es => .ok ((i, nm, p, d) :: es)
      | .error e, _ => .error e
      | _, .error e => .error e

/-- Model of `app.display_criteria` (app.py lines 96-181): `none` stands
for the early `st.warning` return on an empty list; otherwise the
summary loop runs first, then the per-criterion rendering loop, then the
two export artifacts (`json.dumps(criteria, indent=2)` and
`format_criteria_for_display`). -/
def display_criteria (criteria : List Json) : Except PyErr (Option DisplayOut) :=
  if criteria.isEmpty then .ok none
  else
    match collectPriorities criteria with
    | .error e => .error e
    | .ok ps =>
      match collectEntries 1 criteria with
      | .error e => .error e
      | .ok es =>
        match format_criteria_for_display criteria with
        | .error e => .error e
        | .ok text =>
          .ok (some
            { priorities := ps, entries := es,
              jsonExport := json_dumps_indent2 (.arr criteria), textExport := text })

/-- A concrete conformant criterion used by witness instantiations. -/
def sampleCriterion : Json :=
  .obj [("name", .str "Python"), ("must_have", .str "Yes"), ("weight", .str "60%"),
    ("description", .str "Projects using Python")]

/-- A second concrete conformant criterion used by witness
instantiations. -/
def sampleCriterion2 : Json :=
  .obj [("name", .str "SQL"), ("must_have", .str "No"), ("weight", .str "40%"),
    ("description", .str "Queries")]

/-- Whether an optional credential source yields no usable key: it is
absent, or present but empty (falsy for Python `or` and `if not key`). -/
def credMissing (o : Option String) : Bool :=
  match o with
  | none => true
  | some s => s = ""

/-- The claim's weight clause, evaluated on a weight value: it does not
end in a percent marker, does not parse as a number, or parses to a
value outside [0,100] (integer form of the range test; `decVal_range`
relates it to the rational value).  A non-string value does not end in a
percent marker. -/
def weightBadClaim : Json → Bool
  | .str w =>
    !(match w.data.getLast? with
      | some c => c = '%'
      | none => false) ||
    (match pyFloat (String.mk w.data.dropLast) with
     | none => true
     | some q => decide (q.1 < 0 ∨ 100 * (10 : Int) ^ q.2 < q.1))
  | _ => true

/-- One element violates the claim's conditions: it is not a
record/object, lacks a required field, has a `must_have` value outside
the enumerated set, or has a bad weight. -/
def elemViolatesClaim : Json → Bool
  | .obj kvs =>
    requiredKeys.any (fun k => (jsonGet kvs k).isNone) ||
    (match jsonGet kvs "must_have" with
     | some v => ! isYesNo v
     | none => false) ||
    (match jsonGet kvs "weight" with
     | some w => weightBadClaim w
     | none => false)
  | _ => true

/-- The claim's failure condition for a whole parsed array. -/
def c2Condition (criteria : List Json) : Bool :=
  criteria.isEmpty || criteria.any elemViolatesClaim

/-- Whether the validator run raises a `ValueError` (the spec's
output-side `ValidationError`). -/
def failsWithValueError (criteria : List Json) : Bool :=
  match validate_criteria criteria with
  | .error (.valueError _) => true
  | _ => false

/-- Whether an element's weight value, if the element is an object that
has one, is a string (so that `endswith` exists on it). -/
def elemWeightString : Json → Bool
  | .obj kvs =>
    match jsonGet kvs "weight" with
    | some (.str _) => true
    | some _ => false
    | none => true
  | _ => true

/-- Every element's weight value present is a string. -/
def allWeightsAreStrings (criteria : List Json) : Bool :=
  criteria.all elemWeightString

/-- Index of the first element violating the claim's conditions. -/
def findBadIdx : List Json → Option Nat
  | [] => none
  | c :: rest =>
    if elemViolatesClaim c then some 0 else (findBadIdx rest).map (· + 1)

/-- The messages the validation loop can produce for the element with
0-based index `n`: each names the 1-indexed element, and all but the
non-dictionary one name the offending field. -/
def msgShape (n : Nat) (m : String) : Prop :=
  m = "Criterion " ++ natStr (n + 1) ++ " is not a dictionary" ∨
  (∃ k, k ∈ requiredKeys ∧ m = "Missing \x27" ++ k ++ "\x27 in criterion " ++ natStr (n + 1)) ∨
  (∃ v, m = "Invalid must_have value in criterion " ++ natStr (n + 1) ++ ": " ++ v) ∨
  m = "Weight must end with \x27%\x27 in criterion " ++ natStr (n + 1) ∨
  m = "Invalid weight format in criterion " ++ natStr (n + 1)

/-- The element with a non-string weight used by the C2 counterexample:
its weight is the JSON number 50. -/
def badWeightCriterion : Json :=
  .obj [("name", .str "A"), ("must_have", .str "Yes"), ("weight", .num 50),
    ("description", .str "D")]

/-- Whether the needle matches the haystack at its start. -/
def atPos (needle hay : List Char) : Bool :=
  (expectLit needle hay).isSome

/-- Number of positions of the haystack (including its end) at which
the needle occurs; the occurrence count that reads "contains exactly
once" and "contains at least once". -/
def countOccur (needle : List Char) : List Char → Nat
  | [] => if atPos needle [] then 1 else 0
  | c :: t => (if atPos needle (c :: t) then 1 else 0) + countOccur needle t

/-- A conformant criterion whose name collides with the fixed
`- Must-Have:` label text of every display block. -/
def nameCollisionCriterion : Json :=
  .obj [("name", .str "Must-Have"), ("must_have", .str "Yes"), ("weight", .str "100%"),
    ("description", .str "d")]

/-- The rendering the formatter produces for the name-collision list. -/
def nameCollisionText : String :=
  "\n**1. Must-Have**\n- Must-Have: Yes\n- Weight: 100%\n- Description: d\n\n\n**Total Weight: 100.0%**"

/-- The claim's reading of "the sum of the individual criteria's weight
percentages": each element's weight string without its final percent
marker, parsed and summed exactly. -/
def sumWeights : List Json → Option (Int × Nat)
  | [] => some (0, 0)
  | c :: rest =>
    match c with
    | .obj kvs =>
      match jsonGet kvs "weight" with
      | some (.str w) =>
        match pyFloat (String.mk w.data.dropLast) with
        | some q => (sumWeights rest).map (addDec q)
        | none => none
      | _ => none
    | _ => none

/-- The rational value displayed by the total-weight figure
`formatFixed1 q`: the rounded count of tenths divided by ten. -/
def fixed1Val (q : Int × Nat) : ℚ :=
  (((20 * q.1 + (10 : Int) ^ q.2) / (2 * (10 : Int) ^ q.2) : Int) : ℚ) / 10

/-- The claim's candidate span: the substring from the first `[` to the
last `]`, inclusive, when both characters are present. -/
def extractSpan (s : String) : Option String :=
  match firstIdxOf '[' s.data, lastIdxOf ']' s.data with
  | some i, some j => some (String.mk ((s.data.drop i).take (j + 1 - i)))
  | _, _ => none

mutual

/-- Parser fuel needed for a value (leaves cost one unit; containers one
unit plus their contents). -/
def jsize : Json → Nat
  | .null => 1
  | .bool _ => 1
  | .num _ => 1
  | .str _ => 1
  | .arr xs => 1 + jsizeList xs
  | .obj kvs => 1 + jsizeKVs kvs

/-- Fuel needed for the elements of an array. -/
def jsizeList : List Json → Nat
  | [] => 1
  | x :: xs => 1 + jsize x + jsizeList xs

/-- Fuel needed for the members of an object. -/
def jsizeKVs : List (String × Json) → Nat
  | [] => 1
  | kv :: kvs => 1 + jsize kv.2 + jsizeKVs kvs

end

/-- Little-endian value of a digit character list. -/
def valLE : List Char → Nat
  | [] => 0
  | c :: cs => digitVal c + 10 * valLE cs

/-- What may legally follow a printed value so that the value parsers
stop exactly at its end: nothing, a comma, or a newline. -/
def restHeadOk : List Char → Bool
  | [] => true
  | c :: _ => c = ',' || c = '\n'

/-- A key found by dictionary lookup is among the object's keys. -/
theorem jsonGet_some_mem {kvs : List (String × Json)} {k : String} {v : Json}
    (h : jsonGet kvs k = some v) : k ∈ kvs.map Prod.fst := by
  induction kvs with
  | nil => simp [jsonGet] at h
  | cons p rest ih =>
    by_cases hp : p.1 = k
    · simp [hp]
    · obtain ⟨k', v'⟩ := p
      simp only [jsonGet] at h
      simp only at hp
      rw [if_neg hp] at h
      simp [ih h]

/-- A passing per-element check forces the element to be a dictionary. -/
theorem checkCriterion_none_obj {i : Nat} {c : Json}
    (h : checkCriterion i c = none) : ∃ kvs, c = .obj kvs := by
  cases c <;> simp_all [checkCriterion]

/-- A passing validation run forces the first element check to pass. -/
theorem validate_ok_head {c : Json} {rest result : List Json}
    (h : validate_criteria (c :: rest) = .ok result) :
    checkCriterion 0 c = none := by
  simp only [validate_criteria, List.isEmpty_cons, Bool.false_eq_true, if_false] at h
  cases hf : firstCheckErr 0 (c :: rest) with
  | some e => rw [hf] at h; cases h
  | none =>
    simp only [firstCheckErr] at hf
    cases hc : checkCriterion 0 c with
    | some e => rw [hc] at hf; cases hf
    | none => rfl

/-- C4: whenever `job_role` or `jd_text` is empty or whitespace-only —
regardless of the other argument — `generate_criteria` fails with an
input-side `ValueError` (the spec's input `ValidationError`), and the
outcome does not depend on the remote model function, i.e. the failure
is surfaced before any remote call is attempted. -/
theorem C4_blank_input_rejected (complete : String → Except String String)
    (job_role jd_text user_guidance : String)
    (h : pyBlank job_role = true ∨ pyBlank jd_text = true) :
    (∃ m, generate_criteria complete job_role jd_text user_guidance =
      .error (.valueError m)) ∧
    ∀ complete2 : String → Except String String,
      generate_criteria complete2 job_role jd_text user_guidance =
        generate_criteria complete job_role jd_text user_guidance := by
  by_cases hjd : pyBlank jd_text = true
  · exact ⟨⟨"Job description cannot be empty", by simp [generate_criteria, hjd]⟩,
      fun c2 => by simp [generate_criteria, hjd]⟩
  · have hrole : pyBlank job_role = true := by
      rcases h with h | h
      · exact h
      · exact absurd h hjd
    have hjd' : pyBlank jd_text = false := by simpa using hjd
    exact ⟨⟨"Job role cannot be empty", by simp [generate_criteria, hjd', hrole]⟩,
      fun c2 => by simp [generate_criteria, hjd', hrole]⟩

/-- Witness for C4 at a concrete input: an empty job role with a
non-empty description is rejected with a `ValueError`. -/
theorem C4_blank_input_rejected_witness :
    ∃ m, generate_criteria (fun _ => .ok "[]") "" "desc" "" = .error (.valueError m) :=
  (C4_blank_input_rejected (fun _ => .ok "[]") "" "desc" "" (Or.inl (by decide))).1

/-- C5: constructing a `CriteriaGenerator` fails exactly when neither
the explicit `api_key` argument nor the `GEMINI_API_KEY` environment
value yields a usable credential, and the only possible failure is the
configuration error (the spec's `ConfigurationError`).  The constructor
model involves no remote interaction: `genai.configure` and the model
constructor only record configuration locally. -/
theorem C5_constructor_credential (api_key env_key : Option String) :
    ((∃ e, CriteriaGenerator.init api_key env_key = .error e) ↔
      credMissing api_key = true ∧ credMissing env_key = true) ∧
    ∀ e, CriteriaGenerator.init api_key env_key = .error e →
      e = .exception ("Failed to initialize Gemini model: " ++ noKeyMsg) := by
  cases api_key with
  | none =>
    cases env_key with
    | none => simp [CriteriaGenerator.init, credMissing]
    | some s =>
      by_cases hs : s = "" <;> simp [CriteriaGenerator.init, credMissing, hs]
  | some a =>
    by_cases ha : a = ""
    · cases env_key with
      | none => simp [CriteriaGenerator.init, credMissing, ha]
      | some s =>
        by_cases hs : s = "" <;> simp [CriteriaGenerator.init, credMissing, ha, hs]
    · simp [CriteriaGenerator.init, credMissing, ha]

/-- Witness for C5 at concrete inputs: with no explicit key and no
environment key the constructor fails, and the error is the
configuration error. -/
theorem C5_constructor_credential_witness :
    (∃ e, CriteriaGenerator.init none none = .error e) ∧
    ∀ e, CriteriaGenerator.init none none = .error e →
      e = .exception ("Failed to initialize Gemini model: " ++ noKeyMsg) :=
  ⟨(C5_constructor_credential none none).1.mpr ⟨by decide, by decide⟩,
    (C5_constructor_credential none none).2⟩

/-- C6: a successful validation returns the input sequence itself —
no mutation, no reordering, no deduplication — and re-validating the
accepted value succeeds and returns it unchanged (idempotence). -/
theorem C6_validator_returns_input (criteria result : List Json)
    (h : validate_criteria criteria = .ok result) :
    result = criteria ∧ validate_criteria result = .ok result := by
  have hcopy := h
  simp only [validate_criteria] at hcopy
  by_cases he : criteria.isEmpty
  · rw [if_pos he] at hcopy; cases hcopy
  · rw [if_neg he] at hcopy
    cases hf : firstCheckErr 0 criteria with
    | some e => rw [hf] at hcopy; cases hcopy
    | none =>
      rw [hf] at hcopy
      have : criteria = result := by injection hcopy
      subst this
      exact ⟨rfl, h⟩

/-- Witness for C6 at a concrete input: a conformant two-element list is
returned unchanged and re-validates to itself. -/
theorem C6_validator_returns_input_witness :
    [sampleCriterion, sampleCriterion2] = [sampleCriterion, sampleCriterion2] ∧
    validate_criteria [sampleCriterion, sampleCriterion2] =
      .ok [sampleCriterion, sampleCriterion2] :=
  C6_validator_returns_input [sampleCriterion, sampleCriterion2]
    [sampleCriterion, sampleCriterion2] rfl

/-- C1 does not hold as stated: the pipeline error is not propagated
unchanged.  At a concrete input the extractor raises a `ValueError`, yet
the caller of `generate_criteria` receives a different error — a generic
`Exception` whose message prepends `Error generating criteria: ` — so
neither the kind nor the message is preserved. -/
theorem C1_counterexample :
    extract_json_from_response "no json" =
      .error (.valueError "Error parsing response: No JSON array found in response") ∧
    generate_criteria (fun _ => .ok "no json") "r" "d" "" =
      .error (.exception
        "Error generating criteria: Error parsing response: No JSON array found in response") ∧
    PyErr.exception
        "Error generating criteria: Error parsing response: No JSON array found in response" ≠
      PyErr.valueError "Error parsing response: No JSON array found in response" :=
  ⟨rfl, rfl, by decide⟩

/-- C1 as amended: with non-blank inputs, every component failure —
remote fault, extraction error or validation error — aborts
`generate_criteria` with an error (so no partial result is ever
returned), but the surfaced error is the re-wrapped generic one: its
message is `Error generating criteria: ` followed by the component's own
message, and its kind is the generic `Exception`. -/
theorem C1_component_failure_wrapped (complete : String → Except String String)
    (job_role jd_text user_guidance : String)
    (h1 : pyBlank jd_text = false) (h2 : pyBlank job_role = false) :
    (∀ m, complete (buildPrompt job_role jd_text user_guidance) = .error m →
      generate_criteria complete job_role jd_text user_guidance =
        .error (.exception ("Error generating criteria: " ++ m))) ∧
    (∀ text e, complete (buildPrompt job_role jd_text user_guidance) = .ok text →
      extract_json_from_response text = .error e →
      generate_criteria complete job_role jd_text user_guidance =
        .error (.exception ("Error generating criteria: " ++ e.msg))) ∧
    (∀ text criteria e, complete (buildPrompt job_role jd_text user_guidance) = .ok text →
      extract_json_from_response text = .ok criteria →
      validate_criteria criteria = .error e →
      generate_criteria complete job_role jd_text user_guidance =
        .error (.exception ("Error generating criteria: " ++ e.msg))) := by
  refine ⟨?_, ?_, ?_⟩
  · intro m hm
    simp [generate_criteria, h1, h2, hm]
  · intro text e hc he
    simp [generate_criteria, h1, h2, hc, he]
  · intro text criteria e hc hx hv
    simp [generate_criteria, h1, h2, hc, hx, hv]

/-- Witness for C1 as amended, at a concrete input: a remote fault
message reappears wrapped in the generic error. -/
theorem C1_component_failure_wrapped_witness :
    generate_criteria (fun _ => .error "503 quota exhausted") "r" "d" "" =
      .error (.exception ("Error generating criteria: " ++ "503 quota exhausted")) :=
  (C1_component_failure_wrapped (fun _ => .error "503 quota exhausted") "r" "d" ""
    (by decide) (by decide)).1 "503 quota exhausted" rfl

/-- C10: the two source files disagree on the schema: any list the
validator accepts whose elements carry only the validated keys (`name`,
`must_have`, `weight`, `description`) makes `display_criteria` fail with
a `KeyError` on `priority`, which its first loop reads unconditionally
from every element. -/
theorem C10_schema_mismatch (criteria : List Json)
    (hv : validate_criteria criteria = .ok criteria)
    (hk : criteria.all (fun c => c.keys.all (fun k => requiredKeys.contains k)) = true) :
    display_criteria criteria = .error (.keyError "priority") := by
  cases criteria with
  | nil => simp [validate_criteria] at hv
  | cons c rest =>
    obtain ⟨kvs, rfl⟩ := checkCriterion_none_obj (validate_ok_head hv)
    have hget : jsonGet kvs "priority" = none := by
      cases hp : jsonGet kvs "priority" with
      | none => rfl
      | some v =>
        have hmem := jsonGet_some_mem hp
        simp only [List.all_cons, Bool.and_eq_true] at hk
        have hkeys := hk.1
        rw [List.all_eq_true] at hkeys
        have := hkeys "priority" (by simpa [Json.keys] using hmem)
        simp [requiredKeys] at this
    simp [display_criteria, collectPriorities, pyGetItem, hget]

/-- Witness for C10 at a concrete input: the sample criterion passes
validation carrying only the four validated keys, and displaying it
fails with the `priority` key error. -/
theorem C10_schema_mismatch_witness :
    display_criteria [sampleCriterion] = .error (.keyError "priority") :=
  C10_schema_mismatch [sampleCriterion] rfl (by decide)

/-- The integer range test used by the executable definitions agrees
with the rational statement `value < 0 ∨ 100 < value`. -/
theorem decVal_range (m : Int) (k : Nat) :
    (m < 0 ∨ 100 * (10 : Int) ^ k < m) ↔
      (decVal (m, k) < 0 ∨ 100 < decVal (m, k)) := by
  have hpow : (0 : ℚ) < (10 : ℚ) ^ k := by positivity
  constructor
  · rintro (h | h)
    · exact Or.inl (div_neg_of_neg_of_pos (by exact_mod_cast h) hpow)
    · refine Or.inr ?_
      rw [decVal, lt_div_iff hpow]
      calc (100 : ℚ) * (10 : ℚ) ^ k = ((100 * (10 : Int) ^ k : Int) : ℚ) := by push_cast; ring
        _ < (m : ℚ) := by exact_mod_cast h
  · rintro (h | h)
    · left
      by_contra hm
      push_neg at hm
      have : (0 : ℚ) ≤ decVal (m, k) :=
        div_nonneg (by exact_mod_cast hm) (le_of_lt hpow)
      linarith
    · right
      rw [decVal, lt_div_iff hpow] at h
      have : ((100 * (10 : Int) ^ k : Int) : ℚ) < (m : ℚ) := by
        calc ((100 * (10 : Int) ^ k : Int) : ℚ) = (100 : ℚ) * (10 : ℚ) ^ k := by push_cast; ring
          _ < (m : ℚ) := h
      exact_mod_cast this

/-- A missing required key found by the sequential scan is one of the
scanned keys. -/
theorem firstMissingKey_some_mem {kvs : List (String × Json)} {ks : List String} {k : String}
    (h : firstMissingKey kvs ks = some k) : k ∈ ks := by
  induction ks with
  | nil => simp [firstMissingKey] at h
  | cons k0 ks ih =>
    simp only [firstMissingKey] at h
    by_cases h0 : (jsonGet kvs k0).isNone
    · rw [if_pos h0] at h
      injection h with h
      simp [h]
    · rw [if_neg h0] at h
      simp [ih h]

/-- The sequential missing-key scan succeeds exactly when no scanned key
is absent. -/
theorem firstMissingKey_none_iff (kvs : List (String × Json)) (ks : List String) :
    firstMissingKey kvs ks = none ↔
      (ks.any (fun k => (jsonGet kvs k).isNone)) = false := by
  induction ks with
  | nil => simp [firstMissingKey]
  | cons k0 ks ih =>
    simp only [firstMissingKey, List.any_cons, Bool.or_eq_false_iff]
    by_cases h0 : (jsonGet kvs k0).isNone
    · simp [h0]
    · rw [if_neg h0]
      simp only [Bool.not_eq_true] at h0
      simp [h0, ih]

/-- Keys that passed the missing-key scan are all present. -/
theorem firstMissingKey_none_present {kvs : List (String × Json)} {ks : List String}
    (h : firstMissingKey kvs ks = none) : ∀ k ∈ ks, ∃ v, jsonGet kvs k = some v := by
  intro k hk
  rw [firstMissingKey_none_iff] at h
  cases hv : jsonGet kvs k with
  | none =>
    exfalso
    have : ks.any (fun k => (jsonGet kvs k).isNone) = true :=
      List.any_eq_true.mpr ⟨k, hk, by simp [hv]⟩
    rw [h] at this
    cases this
  | some v => exact ⟨v, rfl⟩

/-- The per-element check of the source passes exactly when the claim's
per-element condition is clear — for every element, string-weighted or
not (a non-string weight fails the check with an `AttributeError` and
violates the claim's weight clause). -/
theorem checkCriterion_none_iff (i : Nat) (c : Json) :
    checkCriterion i c = none ↔ elemViolatesClaim c = false := by
  cases c with
  | obj kvs =>
    simp only [checkCriterion, elemViolatesClaim]
    cases hm : firstMissingKey kvs requiredKeys with
    | some k =>
      have hany : (requiredKeys.any fun k => (jsonGet kvs k).isNone) = true := by
        cases hb : (requiredKeys.any fun k => (jsonGet kvs k).isNone) with
        | false =>
          rw [← firstMissingKey_none_iff] at hb
          rw [hb] at hm
          cases hm
        | true => rfl
      simp [hany]
    | none =>
      have hany := (firstMissingKey_none_iff kvs requiredKeys).mp hm
      obtain ⟨mh, hmh⟩ :=
        firstMissingKey_none_present hm "must_have" (by simp [requiredKeys])
      obtain ⟨w, hw⟩ :=
        firstMissingKey_none_present hm "weight" (by simp [requiredKeys])
      rw [hmh, hw, hany]
      by_cases hyn : isYesNo mh = true
      · simp only [hyn, not_true, if_false, Bool.not_true, Bool.false_or]
        cases w with
        | str ws =>
          simp only [weightBadClaim]
          cases hlast : ws.data.getLast? with
          | none => simp [hlast]
          | some clast =>
            by_cases hpc : clast = '%'
            · subst hpc
              simp only [hlast, if_neg (by simp : ¬ (some '%' ≠ some '%'))]
              cases hpf : pyFloat (String.mk ws.data.dropLast) with
              | none => simp
              | some q =>
                by_cases hr : q.1 < 0 ∨ 100 * (10 : Int) ^ q.2 < q.1
                · simp [hr]
                · simp [hr]
            · have hne : ws.data.getLast? ≠ some '%' := by
                rw [hlast]; intro h; injection h with h; exact hpc h
              simp [hlast, hne, hpc]
        | null => simp [weightBadClaim]
        | bool b => simp [weightBadClaim]
        | num n => simp [weightBadClaim]
        | arr xs => simp [weightBadClaim]
        | obj kvs2 => simp [weightBadClaim]
      · simp [hyn]
  | null => simp [checkCriterion, elemViolatesClaim]
  | bool b => simp [checkCriterion, elemViolatesClaim]
  | num n => simp [checkCriterion, elemViolatesClaim]
  | str s => simp [checkCriterion, elemViolatesClaim]
  | arr xs => simp [checkCriterion, elemViolatesClaim]

/-- A `ValueError` from the per-element check marks a claim-violating
element and carries one of the indexed messages. -/
theorem checkCriterion_valueError_shape {i : Nat} {c : Json} {m : String}
    (h : checkCriterion i c = some (.valueError m)) :
    elemViolatesClaim c = true ∧ msgShape i m := by
  have hviol : elemViolatesClaim c = true := by
    cases hb : elemViolatesClaim c with
    | false =>
      rw [← checkCriterion_none_iff i c] at hb
      rw [hb] at h
      cases h
    | true => rfl
  refine ⟨hviol, ?_⟩
  cases c with
  | obj kvs =>
    simp only [checkCriterion] at h
    cases hm : firstMissingKey kvs requiredKeys with
    | some k =>
      rw [hm] at h
      try dsimp only at h
      injection h with h
      injection h with h
      exact Or.inr (Or.inl ⟨k, firstMissingKey_some_mem hm, h.symm⟩)
    | none =>
      rw [hm] at h
      try dsimp only at h
      obtain ⟨mh, hmh⟩ :=
        firstMissingKey_none_present hm "must_have" (by simp [requiredKeys])
      obtain ⟨w, hw⟩ :=
        firstMissingKey_none_present hm "weight" (by simp [requiredKeys])
      rw [hmh] at h
      try dsimp only at h
      by_cases hyn : isYesNo mh = true
      · rw [if_neg (not_not_intro hyn), hw] at h
        try dsimp only at h
        cases w with
        | str ws =>
          try dsimp only at h
          by_cases hpc : ws.data.getLast? = some '%'
          · rw [if_neg (by simp [hpc])] at h
            cases hpf : pyFloat (String.mk ws.data.dropLast) with
            | none =>
              rw [hpf] at h
              try dsimp only at h
              injection h with h
              injection h with h
              exact Or.inr (Or.inr (Or.inr (Or.inr h.symm)))
            | some q =>
              rw [hpf] at h
              try dsimp only at h
              by_cases hr : q.1 < 0 ∨ 100 * (10 : Int) ^ q.2 < q.1
              · rw [if_pos hr] at h
                injection h with h
                injection h with h
                exact Or.inr (Or.inr (Or.inr (Or.inr h.symm)))
              · rw [if_neg hr] at h
                cases h
          · rw [if_pos hpc] at h
            injection h with h
            injection h with h
            exact Or.inr (Or.inr (Or.inr (Or.inl h.symm)))
        | null => simp at h
        | bool b => simp at h
        | num n => simp at h
        | arr xs => simp at h
        | obj kvs2 => simp at h
      · rw [if_pos hyn] at h
        injection h with h
        injection h with h
        exact Or.inr (Or.inr (Or.inl ⟨pyStr mh, h.symm⟩))
  | null =>
    simp only [checkCriterion] at h
    injection h with h
    injection h with h
    exact Or.inl h.symm
  | bool b =>
    simp only [checkCriterion] at h
    injection h with h
    injection h with h
    exact Or.inl h.symm
  | num n =>
    simp only [checkCriterion] at h
    injection h with h
    injection h with h
    exact Or.inl h.symm
  | str s =>
    simp only [checkCriterion] at h
    injection h with h
    injection h with h
    exact Or.inl h.symm
  | arr xs =>
    simp only [checkCriterion] at h
    injection h with h
    injection h with h
    exact Or.inl h.symm

/-- With a string weight, every error the per-element check raises is a
`ValueError`. -/
theorem checkCriterion_valueError_of_stringWeight {i : Nat} {c : Json} {e : PyErr}
    (hg : elemWeightString c = true) (h : checkCriterion i c = some e) :
    e.isValueError = true := by
  cases c with
  | obj kvs =>
    simp only [checkCriterion] at h
    cases hm : firstMissingKey kvs requiredKeys with
    | some k =>
      rw [hm] at h
      try dsimp only at h
      injection h with h
      rw [← h]
      rfl
    | none =>
      rw [hm] at h
      try dsimp only at h
      obtain ⟨mh, hmh⟩ :=
        firstMissingKey_none_present hm "must_have" (by simp [requiredKeys])
      rw [hmh] at h
      try dsimp only at h
      by_cases hyn : isYesNo mh = true
      · rw [if_neg (not_not_intro hyn)] at h
        obtain ⟨w, hw⟩ :=
          firstMissingKey_none_present hm "weight" (by simp [requiredKeys])
        rw [hw] at h
        try dsimp only at h
        simp only [elemWeightString, hw] at hg
        cases w with
        | str ws =>
          try dsimp only at h
          by_cases hpc : ws.data.getLast? = some '%'
          · rw [if_neg (by simp [hpc])] at h
            cases hpf : pyFloat (String.mk ws.data.dropLast) with
            | none =>
              rw [hpf] at h
              try dsimp only at h
              injection h with h
              rw [← h]; rfl
            | some q =>
              rw [hpf] at h
              try dsimp only at h
              by_cases hr : q.1 < 0 ∨ 100 * (10 : Int) ^ q.2 < q.1
              · rw [if_pos hr] at h
                injection h with h
                rw [← h]; rfl
              · rw [if_neg hr] at h
                cases h
          · rw [if_pos hpc] at h
            injection h with h
            rw [← h]; rfl
        | null => simp at hg
        | bool b => simp at hg
        | num n => simp at hg
        | arr xs => simp at hg
        | obj kvs2 => simp at hg
      · rw [if_pos hyn] at h
        injection h with h
        rw [← h]; rfl
  | null => simp only [checkCriterion] at h; injection h with h; rw [← h]; rfl
  | bool b => simp only [checkCriterion] at h; injection h with h; rw [← h]; rfl
  | num n => simp only [checkCriterion] at h; injection h with h; rw [← h]; rfl
  | str s => simp only [checkCriterion] at h; injection h with h; rw [← h]; rfl
  | arr xs => simp only [checkCriterion] at h; injection h with h; rw [← h]; rfl

/-- The validation loop passes exactly when no element violates the
claim's conditions. -/
theorem firstCheckErr_none_iff (i : Nat) (l : List Json) :
    firstCheckErr i l = none ↔ l.any elemViolatesClaim = false := by
  induction l generalizing i with
  | nil => simp [firstCheckErr]
  | cons c rest ih =>
    simp only [firstCheckErr, List.any_cons, Bool.or_eq_false_iff]
    cases hc : checkCriterion i c with
    | some e =>
      have : elemViolatesClaim c = true := by
        cases hb : elemViolatesClaim c with
        | false =>
          rw [← checkCriterion_none_iff i c] at hb
          rw [hb] at hc
          cases hc
        | true => rfl
      simp [this]
    | none =>
      have := (checkCriterion_none_iff i c).mp hc
      simp [this, ih]

/-- A `ValueError` from the validation loop names the 1-indexed first
claim-violating element. -/
theorem firstCheckErr_msg (i : Nat) (l : List Json) (m : String)
    (h : firstCheckErr i l = some (.valueError m)) :
    ∃ j, findBadIdx l = some j ∧ msgShape (i + j) m := by
  induction l generalizing i with
  | nil => simp [firstCheckErr] at h
  | cons c rest ih =>
    simp only [firstCheckErr] at h
    cases hc : checkCriterion i c with
    | some e =>
      rw [hc] at h
      injection h with h
      subst h
      obtain ⟨hviol, hshape⟩ := checkCriterion_valueError_shape hc
      exact ⟨0, by simp [findBadIdx, hviol], by simpa using hshape⟩
    | none =>
      rw [hc] at h
      obtain ⟨j, hfind, hshape⟩ := ih (i + 1) h
      have hnv := (checkCriterion_none_iff i c).mp hc
      refine ⟨j + 1, by simp [findBadIdx, hnv, hfind], ?_⟩
      have : i + (j + 1) = i + 1 + j := by omega
      rw [this]
      exact hshape

/-- With string weights, every error the validation loop raises is a
`ValueError`. -/
theorem firstCheckErr_valueError (i : Nat) (l : List Json) (e : PyErr)
    (hg : l.all elemWeightString = true) (h : firstCheckErr i l = some e) :
    e.isValueError = true := by
  induction l generalizing i with
  | nil => simp [firstCheckErr] at h
  | cons c rest ih =>
    simp only [List.all_cons, Bool.and_eq_true] at hg
    simp only [firstCheckErr] at h
    cases hc : checkCriterion i c with
    | some e2 =>
      rw [hc] at h
      injection h with h
      subst h
      exact checkCriterion_valueError_of_stringWeight hg.1 hc
    | none =>
      rw [hc] at h
      exact ih (i + 1) hg.2 h

/-- C2 does not hold as stated: on the one-element array whose weight
value is the JSON number `50` the claim's condition holds (the weight
does not end in a percent marker), yet the validator does not fail with
a `ValueError` — `weight_str.endswith` raises an `AttributeError`
instead, a different error kind. -/
theorem C2_counterexample :
    failsWithValueError [badWeightCriterion] ≠ c2Condition [badWeightCriterion] ∧
    c2Condition [badWeightCriterion] = true ∧
    validate_criteria [badWeightCriterion] =
      .error (.attributeError
        "\x27int\x27 object has no attribute \x27endswith\x27") :=
  ⟨by decide, by decide, rfl⟩

/-- C2 as amended: provided every weight value present is a string, the
validator fails with a `ValueError` exactly when the array is empty, or
some element is not a record, lacks a required field, has a `must_have`
value outside the enumerated pair, or has a weight that does not end in
a percent marker, does not parse as a number, or parses out of [0,100];
the first violation aborts the batch, and the message names the
1-indexed first offending element and, except for the non-record case,
the offending field (an element whose weight is not a string instead
aborts with an `AttributeError`). -/
theorem C2_validator_failure_conditions (criteria : List Json)
    (hw : allWeightsAreStrings criteria = true) :
    failsWithValueError criteria = c2Condition criteria ∧
    ∀ m, validate_criteria criteria = .error (.valueError m) →
      (criteria.isEmpty = true ∧ m = "No criteria generated") ∨
      ∃ j, findBadIdx criteria = some j ∧ msgShape j m := by
  constructor
  · by_cases he : criteria.isEmpty
    · simp [failsWithValueError, validate_criteria, he, c2Condition]
    · simp only [failsWithValueError, validate_criteria, if_neg he]
      cases hf : firstCheckErr 0 criteria with
      | none =>
        have hany := (firstCheckErr_none_iff 0 criteria).mp hf
        simp only [c2Condition, hany]
        simp [Bool.or_false]
        simpa using he
      | some e =>
        have hany : criteria.any elemViolatesClaim = true := by
          cases hb : criteria.any elemViolatesClaim with
          | false =>
            rw [← firstCheckErr_none_iff 0] at hb
            rw [hb] at hf
            cases hf
          | true => rfl
        have hve := firstCheckErr_valueError 0 criteria e hw hf
        simp only [c2Condition, hany, Bool.or_true]
        cases e with
        | valueError m => rfl
        | keyError k => cases hve
        | attributeError m => cases hve
        | typeError m => cases hve
        | exception m => cases hve
  · intro m hm
    by_cases he : criteria.isEmpty
    · left
      refine ⟨he, ?_⟩
      simp only [validate_criteria, if_pos he] at hm
      injection hm with hm
      injection hm with hm
      exact hm.symm
    · right
      simp only [validate_criteria, if_neg he] at hm
      cases hf : firstCheckErr 0 criteria with
      | none => rw [hf] at hm; cases hm
      | some e =>
        rw [hf] at hm
        injection hm with hm
        subst hm
        simpa using firstCheckErr_msg 0 criteria m hf

/-- Witness for C2 as amended, at a concrete input: a list with one
missing field fails with the message naming element 1 and the field
`description`, and the boolean equivalence evaluates on it. -/
theorem C2_validator_failure_conditions_witness :
    failsWithValueError [Json.obj [("name", .str "A"), ("must_have", .str "Yes"),
        ("weight", .str "10%")]] =
      c2Condition [Json.obj [("name", .str "A"), ("must_have", .str "Yes"),
        ("weight", .str "10%")]] :=
  (C2_validator_failure_conditions [Json.obj [("name", .str "A"),
    ("must_have", .str "Yes"), ("weight", .str "10%")]] (by decide)).1

/-- C8 does not hold as stated: a valid non-empty list whose single
criterion is named `Must-Have` renders to text containing that name at
two positions (its numbered heading and the fixed `- Must-Have:` label),
not exactly once. -/
theorem C8_counterexample :
    validate_criteria [nameCollisionCriterion] = .ok [nameCollisionCriterion] ∧
    format_criteria_for_display [nameCollisionCriterion] = .ok nameCollisionText ∧
    countOccur "Must-Have".data nameCollisionText.data = 2 :=
  ⟨rfl, rfl, by decide⟩

/-- The displayed total-weight figure is within half a tenth of the
exact sum. -/
theorem fixed1Val_close (q : Int × Nat) :
    |fixed1Val q - decVal q| ≤ 1 / 20 := by
  obtain ⟨m, k⟩ := q
  set P : Int := (10 : Int) ^ k with hP
  have hPpos : (0 : Int) < P := pow_pos (by norm_num) k
  set b : Int := 2 * P with hb
  have hbpos : (0 : Int) < b := by positivity
  set a : Int := 20 * m + P with ha
  set n : Int := a / b with hn
  have hmod0 : 0 ≤ a % b := Int.emod_nonneg a (ne_of_gt hbpos)
  have hmod1 : a % b < b := Int.emod_lt_of_pos a hbpos
  have hdecomp : b * n + a % b = a := Int.ediv_add_emod a b
  have hlow : b * n ≤ a := by omega
  have hhigh : a < b * n + b := by omega
  have hPQ : (0 : ℚ) < ((P : Int) : ℚ) := by exact_mod_cast hPpos
  have key1 : 2 * (P : ℚ) * (n : ℚ) - 20 * (m : ℚ) ≤ (P : ℚ) := by
    have h0 : b * n ≤ 20 * m + P := by rw [← ha]; exact hlow
    have h2 : ((b * n : Int) : ℚ) ≤ ((20 * m + P : Int) : ℚ) := by exact_mod_cast h0
    push_cast at h2
    rw [hb] at h2
    push_cast at h2
    linarith
  have key2 : -(P : ℚ) < 2 * (P : ℚ) * (n : ℚ) - 20 * (m : ℚ) := by
    have h0 : 20 * m + P < b * n + b := by rw [← ha]; exact hhigh
    have h2 : ((20 * m + P : Int) : ℚ) < ((b * n + b : Int) : ℚ) := by exact_mod_cast h0
    push_cast at h2
    rw [hb] at h2
    push_cast at h2
    linarith
  have hexpand : fixed1Val (m, k) - decVal (m, k) =
      (2 * (P : ℚ) * (n : ℚ) - 20 * (m : ℚ)) / (20 * (P : ℚ)) := by
    simp only [fixed1Val, decVal, ← hP, ← hb, ← ha, ← hn]
    have hPne : ((P : Int) : ℚ) ≠ 0 := ne_of_gt hPQ
    have hcast : ((10 : ℚ) ^ k) = ((P : Int) : ℚ) := by rw [hP]; push_cast; rfl
    rw [hcast]
    field_simp
    ring
  rw [hexpand, abs_le]
  constructor
  · rw [le_div_iff (by positivity)]
    linarith
  · rw [div_le_div_iff (by positivity) (by norm_num : (0:ℚ) < 20)]
    linarith

/-- Matching a literal against itself followed by anything succeeds. -/
theorem expectLit_self (l rest : List Char) : expectLit l (l ++ rest) = some rest := by
  induction l with
  | nil => rfl
  | cons c t ih => simp [expectLit, ih]

/-- The needle occurs at the start of `needle ++ v`. -/
theorem countOccur_self_append (needle v : List Char) :
    0 < countOccur needle (needle ++ v) := by
  cases needle with
  | nil =>
    induction v with
    | nil => simp [countOccur, atPos, expectLit]
    | cons c t ih => simp [countOccur, atPos, expectLit] at ih ⊢
  | cons n nt =>
    have hat : atPos (n :: nt) (n :: (nt ++ v)) = true := by
      rw [show (n :: (nt ++ v) : List Char) = (n :: nt) ++ v from rfl, atPos, expectLit_self]
      rfl
    simp [countOccur, hat]

/-- Occurrence counts only grow when material precedes the haystack. -/
theorem countOccur_cons_le (needle : List Char) (c : Char) (t : List Char) :
    countOccur needle t ≤ countOccur needle (c :: t) := by
  simp only [countOccur]
  omega

/-- Any explicit decomposition yields a positive occurrence count. -/
theorem countOccur_pos {needle hay u v : List Char} (h : hay = u ++ needle ++ v) :
    0 < countOccur needle hay := by
  subst h
  induction u with
  | nil => simpa using countOccur_self_append needle v
  | cons c t ih =>
    calc 0 < countOccur needle (t ++ needle ++ v) := ih
      _ ≤ countOccur needle (c :: (t ++ needle ++ v)) := countOccur_cons_le _ _ _
      _ = countOccur needle ((c :: t) ++ needle ++ v) := by simp

/-- A passing per-element check yields all the facts the formatter needs:
the element is an object carrying the four fields, its weight is a
string whose body parses to a nonnegative decimal. -/
theorem checkCriterion_none_facts {i : Nat} {c : Json}
    (h : checkCriterion i c = none) :
    ∃ kvs, c = .obj kvs ∧
      (∃ nm, jsonGet kvs "name" = some nm) ∧
      (∃ mh, jsonGet kvs "must_have" = some mh) ∧
      (∃ d, jsonGet kvs "description" = some d) ∧
      ∃ w q, jsonGet kvs "weight" = some (.str w) ∧
        pyFloat (String.mk w.data.dropLast) = some q ∧ 0 ≤ q.1 := by
  cases c with
  | obj kvs =>
    refine ⟨kvs, rfl, ?_⟩
    simp only [checkCriterion] at h
    cases hm : firstMissingKey kvs requiredKeys with
    | some k => rw [hm] at h; cases h
    | none =>
      rw [hm] at h
      try dsimp only at h
      obtain ⟨nm, hnm⟩ := firstMissingKey_none_present hm "name" (by simp [requiredKeys])
      obtain ⟨mh, hmh⟩ :=
        firstMissingKey_none_present hm "must_have" (by simp [requiredKeys])
      obtain ⟨d, hd⟩ :=
        firstMissingKey_none_present hm "description" (by simp [requiredKeys])
      obtain ⟨w, hw⟩ := firstMissingKey_none_present hm "weight" (by simp [requiredKeys])
      refine ⟨⟨nm, hnm⟩, ⟨mh, hmh⟩, ⟨d, hd⟩, ?_⟩
      rw [hmh] at h
      try dsimp only at h
      by_cases hyn : isYesNo mh = true
      · rw [if_neg (not_not_intro hyn), hw] at h
        try dsimp only at h
        cases w with
        | str ws =>
          try dsimp only at h
          by_cases hpc : ws.data.getLast? = some '%'
          · rw [if_neg (by simp [hpc])] at h
            cases hpf : pyFloat (String.mk ws.data.dropLast) with
            | none => rw [hpf] at h; cases h
            | some q =>
              rw [hpf] at h
              try dsimp only at h
              by_cases hr : q.1 < 0 ∨ 100 * (10 : Int) ^ q.2 < q.1
              · rw [if_pos hr] at h; cases h
              · push_neg at hr
                exact ⟨ws, q, hw, hpf, hr.1⟩
          · rw [if_pos hpc] at h; cases h
        | null => simp at h
        | bool b => simp at h
        | num n => simp at h
        | arr xs => simp at h
        | obj kvs2 => simp at h
      · rw [if_pos hyn] at h; cases h
  | null => simp [checkCriterion] at h
  | bool b => simp [checkCriterion] at h
  | num n => simp [checkCriterion] at h
  | str s => simp [checkCriterion] at h
  | arr xs => simp [checkCriterion] at h

/-- A successful validation makes every element pass the per-element
check (at any index, since passing does not depend on the index). -/
theorem validate_ok_elems {criteria result : List Json}
    (h : validate_criteria criteria = .ok result) :
    ∀ c ∈ criteria, checkCriterion 0 c = none := by
  intro c hc
  simp only [validate_criteria] at h
  by_cases he : criteria.isEmpty
  · rw [if_pos he] at h; cases h
  · rw [if_neg he] at h
    cases hf : firstCheckErr 0 criteria with
    | some e => rw [hf] at h; cases h
    | none =>
      have hany := (firstCheckErr_none_iff 0 criteria).mp hf
      rw [checkCriterion_none_iff]
      rw [List.any_eq_false] at hany
      simpa using hany c hc

/-- Over elements that pass the per-element check, the formatter loop
succeeds, its running total is exactly the sum of the weights and is
nonnegative, and each element's block embeds that element's name. -/
theorem formatBlocks_spec (i : Nat) (l : List Json)
    (h : ∀ c ∈ l, checkCriterion 0 c = none) :
    ∃ blocks total, formatBlocks i l = .ok (blocks, total) ∧
      sumWeights l = some total ∧ 0 ≤ total.1 ∧
      ∀ c ∈ l, ∀ kvs nm, c = Json.obj kvs → jsonGet kvs "name" = some nm →
        ∃ bl ∈ blocks, ∃ u v, bl.data = u ++ (pyStr nm).data ++ v := by
  induction l generalizing i with
  | nil => exact ⟨[], (0, 0), rfl, rfl, le_refl 0, by simp⟩
  | cons c rest ih =>
    obtain ⟨kvs, rfl, ⟨nm, hnm⟩, ⟨mh, hmh⟩, ⟨d, hd⟩, w, q, hw, hpf, hq⟩ :=
      checkCriterion_none_facts (h _ (List.mem_cons_self _ _))
    obtain ⟨blocks, total, hfb, hsw, htot, hname⟩ :=
      ih (i + 1) (fun c hc => h c (List.mem_cons_of_mem _ hc))
    have hqtot : 0 ≤ (addDec q total).1 := by
      simp only [addDec]
      have h1 : (0 : Int) ≤ (10 : Int) ^ total.2 := pow_nonneg (by norm_num) _
      have h2 : (0 : Int) ≤ (10 : Int) ^ q.2 := pow_nonneg (by norm_num) _
      nlinarith
    refine ⟨("\n**" ++ natStr i ++ ". " ++ pyStr nm ++ "**\n- Must-Have: " ++ pyStr mh ++
        "\n- Weight: " ++ w ++ "\n- Description: " ++ pyStr d ++ "\n") :: blocks,
      addDec q total, ?_, ?_, hqtot, ?_⟩
    · simp only [formatBlocks, pyGetItem, hw, hnm, hmh, hd, hpf, hfb]
    · simp only [sumWeights, hw, hpf, hsw]
      rfl
    · intro c' hc' kvs' nm' hckvs hnm'
      rcases List.mem_cons.mp hc' with rfl | hmem
      · injection hckvs with hk
        subst hk
        rw [hnm] at hnm'
        injection hnm' with hnm'
        subst hnm'
        refine ⟨_, List.mem_cons_self _ _,
          ("\n**" ++ natStr i ++ ". ").data,
          ("**\n- Must-Have: " ++ pyStr mh ++ "\n- Weight: " ++ w ++
            "\n- Description: " ++ pyStr d ++ "\n").data, ?_⟩
        simp [String.data_append, List.append_assoc]
      · obtain ⟨bl, hbl, u, v, hu⟩ := hname c' hmem kvs' nm' hckvs hnm'
        exact ⟨bl, List.mem_cons_of_mem _ hbl, u, v, hu⟩

/-- Every block of the join appears inside the joined text. -/
theorem joinNL_mem_data {bl : String} {blocks : List String} (h : bl ∈ blocks) :
    ∃ u v, (joinNL blocks).data = u ++ bl.data ++ v := by
  induction blocks with
  | nil => cases h
  | cons b rest ih =>
    cases rest with
    | nil =>
      rcases List.mem_cons.mp h with rfl | hmem
      · exact ⟨[], [], by simp [joinNL]⟩
      · cases hmem
    | cons b2 t =>
      rcases List.mem_cons.mp h with rfl | hmem
      · exact ⟨[], ('\n' :: (joinNL (b2 :: t)).data), by
          simp [joinNL, String.data_append]⟩
      · obtain ⟨u, v, hu⟩ := ih hmem
        refine ⟨b.data ++ '\n' :: u, v, ?_⟩
        simp [joinNL, String.data_append, hu, List.append_assoc]

/-- C8 as amended: for every valid non-empty criteria list the rendering
succeeds, contains every criterion's name (at least once — the fixed
block labels can repeat a name, see the counterexample), and ends with
the total-weight figure, whose displayed value is within rounding
tolerance (half a tenth) of the exact sum of the individual weight
percentages. -/
theorem C8_formatter_names_and_total (criteria : List Json)
    (hv : validate_criteria criteria = .ok criteria) (hne : criteria ≠ []) :
    ∃ t, format_criteria_for_display criteria = .ok t ∧
      (∀ c ∈ criteria, ∀ kvs nm, c = Json.obj kvs → jsonGet kvs "name" = some nm →
        0 < countOccur (pyStr nm).data t.data) ∧
      ∃ total, sumWeights criteria = some total ∧
        (∃ body, t.data =
          body ++ ("\n\n**Total Weight: " ++ formatFixed1 total ++ "%**").data) ∧
        |fixed1Val total - decVal total| ≤ 1 / 20 := by
  obtain ⟨blocks, total, hfb, hsw, htot, hname⟩ :=
    formatBlocks_spec 1 criteria (validate_ok_elems hv)
  have hemp : criteria.isEmpty = false := by
    cases criteria with
    | nil => exact absurd rfl hne
    | cons c rest => rfl
  refine ⟨joinNL blocks ++ "\n\n**Total Weight: " ++ formatFixed1 total ++ "%**",
    ?_, ?_, total, hsw, ⟨(joinNL blocks).data, ?_⟩, fixed1Val_close total⟩
  · simp only [format_criteria_for_display, hemp, Bool.false_eq_true, if_false, hfb]
  · intro c hc kvs nm hckvs hnm
    obtain ⟨bl, hbl, u, v, hu⟩ := hname c hc kvs nm hckvs hnm
    obtain ⟨u2, v2, hu2⟩ := joinNL_mem_data hbl
    refine countOccur_pos (u := u2 ++ u)
      (v := v ++ v2 ++ ("\n\n**Total Weight: " ++ formatFixed1 total ++ "%**").data) ?_
    simp only [String.data_append, hu2, hu, List.append_assoc]
  · simp [String.data_append, List.append_assoc]

/-- Witness for C8 as amended, at a concrete input: the two sample
criteria render with both names present and the total line. -/
theorem C8_formatter_names_and_total_witness :
    ∃ t, format_criteria_for_display [sampleCriterion, sampleCriterion2] = .ok t ∧
      (∀ c ∈ [sampleCriterion, sampleCriterion2], ∀ kvs nm, c = Json.obj kvs →
        jsonGet kvs "name" = some nm → 0 < countOccur (pyStr nm).data t.data) ∧
      ∃ total, sumWeights [sampleCriterion, sampleCriterion2] = some total ∧
        (∃ body, t.data =
          body ++ ("\n\n**Total Weight: " ++ formatFixed1 total ++ "%**").data) ∧
        |fixed1Val total - decVal total| ≤ 1 / 20 :=
  C8_formatter_names_and_total [sampleCriterion, sampleCriterion2] rfl (by simp)

/-- The forward index scan misses exactly when the character is not in
the list. -/
theorem firstIdxOf_eq_none_iff (c : Char) (l : List Char) :
    firstIdxOf c l = none ↔ c ∉ l := by
  induction l with
  | nil => simp [firstIdxOf]
  | cons x xs ih =>
    simp only [firstIdxOf, List.mem_cons]
    by_cases hx : x = c
    · simp [hx]
    · simp only [if_neg hx, Option.map_eq_none', ih]
      constructor
      · intro h hc
        rcases hc with hc | hc
        · exact hx hc.symm
        · exact h hc
      · intro h hc
        exact h (Or.inr hc)

/-- The backward index scan misses exactly when the character is not in
the list. -/
theorem lastIdxOf_eq_none_iff (c : Char) (l : List Char) :
    lastIdxOf c l = none ↔ c ∉ l := by
  simp [lastIdxOf, Option.map_eq_none', firstIdxOf_eq_none_iff, List.mem_reverse]

/-- Case of the extractor analysis where both brackets exist and the
candidate substring parses to a non-array value. -/
theorem extract_nonarray_aux (s : String) (i j : Nat) (jv : Json)
    (hf : firstIdxOf '[' s.data = some i) (hl : lastIdxOf ']' s.data = some j)
    (hspan : extractSpan s = some (String.mk ((s.data.drop i).take (j + 1 - i))))
    (hload : json_loads (String.mk ((s.data.drop i).take (j + 1 - i))) = some jv)
    (hnarr : ∀ ys, jv ≠ .arr ys) :
    (∀ xs, extract_json_from_response s = .ok xs ↔
      ∃ sub, extractSpan s = some sub ∧ json_loads sub = some (.arr xs)) ∧
    ((∃ e, extract_json_from_response s = .error e ∧ e.isValueError = true) ↔
      ('[' ∉ s.data ∨ ']' ∉ s.data ∨
        ∃ sub, extractSpan s = some sub ∧
          (json_loads sub = none ∨
            ∃ j2, json_loads sub = some j2 ∧ ∀ ys, j2 ≠ .arr ys))) := by
  have hok : extract_json_from_response s =
      .error (.valueError "Error parsing response: Response is not a JSON array") := by
    simp only [extract_json_from_response, hf, hl]
    rw [hload]
    cases jv with
    | arr xs0 => exact absurd rfl (hnarr xs0)
    | null => rfl
    | bool b => rfl
    | num n => rfl
    | str s2 => rfl
    | obj kvs => rfl
  constructor
  · intro xs
    rw [hok]
    constructor
    · intro h
      cases h
    · rintro ⟨sub, hsub, hl2⟩
      rw [hspan] at hsub
      injection hsub with hsub
      rw [← hsub, hload] at hl2
      injection hl2 with hl2
      exact absurd hl2 (hnarr xs)
  · rw [hok]
    constructor
    · intro _
      exact Or.inr (Or.inr ⟨_, hspan, Or.inr ⟨_, hload, hnarr⟩⟩)
    · intro _
      exact ⟨.valueError "Error parsing response: Response is not a JSON array", rfl, rfl⟩

/-- C3: the extractor returns the parsed value of the substring from the
first `[` to the last `]` inclusive, and fails with a `ValueError` (the
spec's `ParseError`) exactly when one of the brackets is absent, the
candidate substring is not valid JSON (which covers an empty or
inverted span), or the parsed top-level value is not an array. -/
theorem C3_extractor_exact (s : String) :
    (∀ xs, extract_json_from_response s = .ok xs ↔
      ∃ sub, extractSpan s = some sub ∧ json_loads sub = some (.arr xs)) ∧
    ((∃ e, extract_json_from_response s = .error e ∧ e.isValueError = true) ↔
      ('[' ∉ s.data ∨ ']' ∉ s.data ∨
        ∃ sub, extractSpan s = some sub ∧
          (json_loads sub = none ∨
            ∃ j, json_loads sub = some j ∧ ∀ ys, j ≠ .arr ys))) := by
  cases hf : firstIdxOf '[' s.data with
  | none =>
    have hmem : '[' ∉ s.data := (firstIdxOf_eq_none_iff _ _).mp hf
    constructor
    · intro xs
      simp [extract_json_from_response, extractSpan, hf]
    · simp only [extract_json_from_response, extractSpan, hf]
      constructor
      · intro _
        exact Or.inl hmem
      · intro _
        exact ⟨.valueError "Error parsing response: No JSON array found in response",
          rfl, rfl⟩
  | some i =>
    have hmemf : '[' ∈ s.data := by
      by_contra hc
      rw [← firstIdxOf_eq_none_iff] at hc
      rw [hc] at hf
      cases hf
    cases hl : lastIdxOf ']' s.data with
    | none =>
      have hmem : ']' ∉ s.data := (lastIdxOf_eq_none_iff _ _).mp hl
      constructor
      · intro xs
        simp [extract_json_from_response, extractSpan, hf, hl]
      · simp only [extract_json_from_response, extractSpan, hf, hl]
        constructor
        · intro _
          exact Or.inr (Or.inl hmem)
        · intro _
          exact ⟨.valueError "Error parsing response: No JSON array found in response",
            rfl, rfl⟩
    | some j =>
      have hmeml : ']' ∈ s.data := by
        by_contra hc
        rw [← lastIdxOf_eq_none_iff] at hc
        rw [hc] at hl
        cases hl
      have hspan : extractSpan s = some (String.mk ((s.data.drop i).take (j + 1 - i))) := by
        simp [extractSpan, hf, hl]
      cases hload : json_loads (String.mk ((s.data.drop i).take (j + 1 - i))) with
      | none =>
        constructor
        · intro xs
          simp only [extract_json_from_response, hf, hl, hload, hspan]
          constructor
          · intro h
            cases h
          · rintro ⟨sub, hsub, hl2⟩
            injection hsub with hsub
            rw [← hsub] at hl2
            rw [hload] at hl2
            cases hl2
        · simp only [extract_json_from_response, hf, hl]
          rw [hload]
          constructor
          · intro _
            exact Or.inr (Or.inr ⟨_, hspan, Or.inl hload⟩)
          · intro _
            exact ⟨.valueError ("Invalid JSON format: " ++ jsonDecodeDetail), rfl, rfl⟩
      | some jv =>
        cases jv with
        | arr xs0 =>
          constructor
          · intro xs
            simp only [extract_json_from_response, hf, hl]
            rw [hload]
            constructor
            · intro h
              injection h with h
              subst h
              exact ⟨_, hspan, hload⟩
            · rintro ⟨sub, hsub, hl2⟩
              rw [hspan] at hsub
              injection hsub with hsub
              rw [← hsub] at hl2
              rw [hload] at hl2
              injection hl2 with hl2
              injection hl2 with hl2
              rw [hl2]
          · simp only [extract_json_from_response, hf, hl]
            rw [hload]
            constructor
            · rintro ⟨e, he, _⟩
              cases he
            · rintro (hmem | hmem | ⟨sub, hsub, hbad⟩)
              · exact absurd hmemf hmem
              · exact absurd hmeml hmem
              · rw [hspan] at hsub
                injection hsub with hsub
                rw [← hsub] at hbad
                rw [hload] at hbad
                rcases hbad with hbad | ⟨j2, hj2, hne⟩
                · cases hbad
                · injection hj2 with hj2
                  exact absurd hj2.symm (hne xs0)
        | null =>
          exact extract_nonarray_aux s i j .null hf hl hspan hload (fun ys h => by cases h)
        | bool b =>
          exact extract_nonarray_aux s i j (.bool b) hf hl hspan hload (fun ys h => by cases h)
        | num n =>
          exact extract_nonarray_aux s i j (.num n) hf hl hspan hload (fun ys h => by cases h)
        | str s2 =>
          exact extract_nonarray_aux s i j (.str s2) hf hl hspan hload (fun ys h => by cases h)
        | obj kvs =>
          exact extract_nonarray_aux s i j (.obj kvs) hf hl hspan hload (fun ys h => by cases h)

/-- Every value costs at least one unit of fuel. -/
theorem jsize_pos (j : Json) : 1 ≤ jsize j := by
  cases j <;> simp [jsize] <;> omega

/-- Every element list costs at least one unit of fuel. -/
theorem jsizeList_pos (xs : List Json) : 1 ≤ jsizeList xs := by
  cases xs with
  | nil => simp [jsizeList]
  | cons x t => simp only [jsizeList]; omega

/-- Every member list costs at least one unit of fuel. -/
theorem jsizeKVs_pos (kvs : List (String × Json)) : 1 ≤ jsizeKVs kvs := by
  cases kvs with
  | nil => simp [jsizeKVs]
  | cons kv t => simp only [jsizeKVs]; omega

/-- The decimal digit characters carry their values and are digits. -/
theorem digitChar_facts : ∀ d : Nat, d < 10 →
    digitVal (digitChar d) = d ∧ isDigitChar (digitChar d) = true := by
  decide

/-- Every character the little-endian digit expansion emits is a
digit. -/
theorem natDigitsRev_digits :
    ∀ fuel n : Nat, ∀ c ∈ natDigitsRev fuel n, isDigitChar c = true := by
  intro fuel
  induction fuel with
  | zero => intro n c hc; simp [natDigitsRev] at hc
  | succ fuel ih =>
    intro n c hc
    simp only [natDigitsRev] at hc
    by_cases hn : n = 0
    · simp [hn] at hc
    · rw [if_neg hn] at hc
      rcases List.mem_cons.mp hc with rfl | hc
      · exact (digitChar_facts _ (Nat.mod_lt n (by norm_num))).2
      · exact ih _ c hc

/-- With enough fuel the little-endian expansion evaluates back to its
number. -/
theorem valLE_natDigitsRev : ∀ fuel n : Nat, n ≤ fuel →
    valLE (natDigitsRev fuel n) = n := by
  intro fuel
  induction fuel with
  | zero => intro n hn; interval_cases n; simp [natDigitsRev, valLE]
  | succ fuel ih =>
    intro n hn
    by_cases hz : n = 0
    · simp [hz, natDigitsRev, valLE]
    · simp only [natDigitsRev, if_neg hz, valLE]
      have hdiv : n / 10 ≤ fuel := by
        have := Nat.div_lt_self (Nat.pos_of_ne_zero hz) (by norm_num : 1 < 10)
        omega
      rw [ih _ hdiv, (digitChar_facts _ (Nat.mod_lt n (by norm_num))).1]
      omega

/-- The big-endian digit value of a reversed list is its little-endian
value. -/
theorem digitsVal_reverse (l : List Char) : digitsVal l.reverse = valLE l := by
  rw [digitsVal, List.foldl_reverse]
  induction l with
  | nil => rfl
  | cons c cs ih =>
    simp only [List.foldr_cons, valLE]
    rw [ih]
    omega

/-- The decimal rendering of a natural number evaluates back to it. -/
theorem digitsVal_natChars (n : Nat) : digitsVal (natChars n) = n := by
  by_cases hz : n = 0
  · subst hz; decide
  · rw [natChars, if_neg hz, digitsVal_reverse, valLE_natDigitsRev n n (le_refl n)]

/-- The decimal rendering is never empty. -/
theorem natChars_ne_nil (n : Nat) : natChars n ≠ [] := by
  by_cases hz : n = 0
  · subst hz; decide
  · rw [natChars, if_neg hz]
    cases hn : n with
    | zero => exact absurd hn hz
    | succ k =>
      simp only [natDigitsRev, hn, if_neg (Nat.succ_ne_zero k)]
      simp

/-- Every character of the decimal rendering is a digit. -/
theorem natChars_digits (n : Nat) : ∀ c ∈ natChars n, isDigitChar c = true := by
  intro c hc
  by_cases hz : n = 0
  · subst hz
    simp [natChars] at hc
    subst hc
    decide
  · rw [natChars, if_neg hz, List.mem_reverse] at hc
    exact natDigitsRev_digits n n c hc

/-- Taking while `p` holds over a prefix that satisfies it, against a
tail that opens with a failure, keeps exactly the prefix. -/
theorem takeWhile_append_all {p : Char → Bool} {a b : List Char}
    (ha : ∀ c ∈ a, p c = true) (hb : ∀ c, b.head? = some c → p c = false) :
    (a ++ b).takeWhile p = a := by
  induction a with
  | nil =>
    cases b with
    | nil => rfl
    | cons c cs => simp [List.takeWhile_cons, hb c rfl]
  | cons x a' ih =>
    simp [List.takeWhile_cons, ha x (List.mem_cons_self _ _),
      ih (fun c hc => ha c (List.mem_cons_of_mem _ hc))]

/-- Dropping while `p` holds under the same hypotheses leaves exactly
the tail. -/
theorem dropWhile_append_all {p : Char → Bool} {a b : List Char}
    (ha : ∀ c ∈ a, p c = true) (hb : ∀ c, b.head? = some c → p c = false) :
    (a ++ b).dropWhile p = b := by
  induction a with
  | nil =>
    cases b with
    | nil => rfl
    | cons c cs => simp [List.dropWhile_cons, hb c rfl]
  | cons x a' ih =>
    simp only [List.cons_append, List.dropWhile_cons, ha x (List.mem_cons_self _ _)]
    exact ih (fun c hc => ha c (List.mem_cons_of_mem _ hc))

/-- A legal follower never begins with a digit. -/
theorem restHeadOk_not_digit {r : List Char} (h : restHeadOk r = true) :
    ∀ c, r.head? = some c → isDigitChar c = false := by
  intro c hc
  cases r with
  | nil => cases hc
  | cons x t =>
    have hx : x = c := by injection hc
    subst hx
    simp only [restHeadOk, Bool.or_eq_true, decide_eq_true_eq] at h
    rcases h with rfl | rfl <;> decide

/-- A digit head excludes every dispatch character of the value
parser and every closing token. -/
theorem digit_head_facts {c : Char} (h : isDigitChar c = true) :
    isJsonWs c = false ∧ c ≠ '-' ∧ c ≠ 'n' ∧ c ≠ 't' ∧ c ≠ 'f' ∧ c ≠ '"' ∧
      c ≠ '[' ∧ c ≠ '\x7b' ∧ c ≠ ']' ∧ c ≠ '\x7d' := by
  have hne : ∀ x : Char, isDigitChar x = false → c ≠ x := by
    intro x hx he
    rw [he, hx] at h
    cases h
  refine ⟨?_, hne '-' (by decide), hne 'n' (by decide), hne 't' (by decide),
    hne 'f' (by decide), hne '"' (by decide), hne '[' (by decide),
    hne '\x7b' (by decide), hne ']' (by decide), hne '\x7d' (by decide)⟩
  have h1 : c ≠ ' ' := hne ' ' (by decide)
  have h2 : c ≠ '\t' := hne '\t' (by decide)
  have h3 : c ≠ '\n' := hne '\n' (by decide)
  have h4 : c ≠ '\r' := hne '\r' (by decide)
  simp [isJsonWs, h1, h2, h3, h4]

/-- The integer rendering is never empty. -/
theorem intChars_ne_nil (n : Int) : intChars n ≠ [] := by
  rw [intChars]
  by_cases hn : n < 0
  · simp [hn]
  · simp only [if_neg hn]
    exact natChars_ne_nil _

/-- The number parser consumes exactly a printed integer when what
follows cannot extend a number. -/
theorem parseNumber_intChars (n : Int) (rest : List Char)
    (hr : restHeadOk rest = true) :
    parseNumber (intChars n ++ rest) = some (.num n, rest) := by
  have htake : ∀ m : Nat, (natChars m ++ rest).takeWhile isDigitChar = natChars m :=
    fun m => takeWhile_append_all (natChars_digits m) (restHeadOk_not_digit hr)
  have hdrop : ∀ m : Nat, (natChars m ++ rest).dropWhile isDigitChar = rest :=
    fun m => dropWhile_append_all (natChars_digits m) (restHeadOk_not_digit hr)
  by_cases hn : n < 0
  · rw [intChars, if_pos hn, List.cons_append]
    simp only [parseNumber, if_pos (rfl : ('-' : Char) = '-'), htake, hdrop]
    rw [if_neg (natChars_ne_nil n.natAbs)]
    rw [digitsVal_natChars]
    have : -(n.natAbs : Int) = n := by omega
    rw [this]
    simp
  · rw [intChars, if_neg hn]
    obtain ⟨c, cs, hc⟩ : ∃ c cs, natChars n.natAbs = c :: cs := by
      cases hcc : natChars n.natAbs with
      | nil => exact absurd hcc (natChars_ne_nil _)
      | cons c cs => exact ⟨c, cs, rfl⟩
    have hcd : isDigitChar c = true :=
      natChars_digits _ c (by rw [hc]; exact List.mem_cons_self _ _)
    have hcm : c ≠ '-' := (digit_head_facts hcd).2.1
    rw [hc, List.cons_append]
    simp only [parseNumber, if_neg hcm]
    rw [show (c :: (cs ++ rest) : List Char) = (c :: cs) ++ rest from rfl, ← hc,
      htake, hdrop]
    rw [if_neg (natChars_ne_nil n.natAbs), digitsVal_natChars]
    have : (n.natAbs : Int) = n := by omega
    rw [this]

/-- Dropping whitespace ignores a whitespace chunk. -/
theorem skipWs_append_ws {w : List Char} (l : List Char)
    (hw : ∀ c ∈ w, isJsonWs c = true) : skipWs (w ++ l) = skipWs l := by
  induction w with
  | nil => rfl
  | cons c t ih =>
    simp only [List.cons_append, skipWs, hw c (List.mem_cons_self _ _), if_true]
    exact ih (fun c hc => hw c (List.mem_cons_of_mem _ hc))

/-- Dropping whitespace stops at a non-whitespace head. -/
theorem skipWs_cons_not {c : Char} (l : List Char) (h : isJsonWs c = false) :
    skipWs (c :: l) = c :: l := by
  simp [skipWs, h]

/-- Indentation chunks consist of whitespace. -/
theorem indChars_ws (d : Nat) : ∀ c ∈ indChars d, isJsonWs c = true := by
  intro c hc
  rw [indChars, List.mem_replicate] at hc
  rw [hc.2]
  decide

/-- The value parser ignores a leading whitespace chunk. -/
theorem parseVal_ws {w : List Char} (fuel : Nat) (l : List Char)
    (hw : ∀ c ∈ w, isJsonWs c = true) :
    parseVal fuel (w ++ l) = parseVal fuel l := by
  cases fuel with
  | zero => rfl
  | succ fuel => simp only [parseVal, skipWs_append_ws l hw]

/-- The element-list parser ignores a leading whitespace chunk. -/
theorem parseItems_ws {w : List Char} (fuel : Nat) (l : List Char)
    (hw : ∀ c ∈ w, isJsonWs c = true) :
    parseItems fuel (w ++ l) = parseItems fuel l := by
  cases fuel with
  | zero => rfl
  | succ fuel => simp only [parseItems, parseVal_ws fuel l hw]

/-- The member-list parser ignores a leading whitespace chunk. -/
theorem parseMembers_ws {w : List Char} (fuel : Nat) (l : List Char)
    (hw : ∀ c ∈ w, isJsonWs c = true) :
    parseMembers fuel (w ++ l) = parseMembers fuel l := by
  cases fuel with
  | zero => rfl
  | succ fuel => simp only [parseMembers, skipWs_append_ws l hw]

/-- Hexadecimal digit characters evaluate back to their values. -/
theorem hexVal_hexDigitChar : ∀ m : Nat, m < 16 → hexVal (hexDigitChar m) = some m := by
  decide

/-- The string-body parser decodes an escaped string exactly, leaving
the rest of the input intact. -/
theorem parseStringBody_escape (s : List Char) :
    ∀ rest, parseStringBody (escapeChars s ++ rest) = some (s, rest) := by
  induction s with
  | nil =>
    intro rest
    show parseStringBody ('"' :: rest) = some ([], rest)
    unfold parseStringBody
    simp
  | cons c cs ih =>
    intro rest
    rw [show escapeChars (c :: cs) = escapeChar c ++ escapeChars cs from rfl,
      List.append_assoc]
    by_cases h1 : c = '"'
    · subst h1
      rw [show escapeChar '"' = ['\\', '"'] from rfl]
      show parseStringBody ('\\' :: '"' :: (escapeChars cs ++ rest)) = _
      unfold parseStringBody
      simp [ih]
    · by_cases h2 : c = '\\'
      · subst h2
        rw [show escapeChar '\\' = ['\\', '\\'] from rfl]
        show parseStringBody ('\\' :: '\\' :: (escapeChars cs ++ rest)) = _
        unfold parseStringBody
        simp [ih]
      · by_cases h3 : c = '\n'
        · subst h3
          rw [show escapeChar '\n' = ['\\', 'n'] from rfl]
          show parseStringBody ('\\' :: 'n' :: (escapeChars cs ++ rest)) = _
          unfold parseStringBody
          simp [ih]
        · by_cases h4 : c = '\t'
          · subst h4
            rw [show escapeChar '\t' = ['\\', 't'] from rfl]
            show parseStringBody ('\\' :: 't' :: (escapeChars cs ++ rest)) = _
            unfold parseStringBody
            simp [ih]
          · by_cases h5 : c = '\r'
            · subst h5
              rw [show escapeChar '\r' = ['\\', 'r'] from rfl]
              show parseStringBody ('\\' :: 'r' :: (escapeChars cs ++ rest)) = _
              unfold parseStringBody
              simp [ih]
            · by_cases h6 : c = '\x08'
              · subst h6
                rw [show escapeChar '\x08' = ['\\', 'b'] from rfl]
                show parseStringBody ('\\' :: 'b' :: (escapeChars cs ++ rest)) = _
                unfold parseStringBody
                simp [ih]
              · by_cases h7 : c = '\x0c'
                · subst h7
                  rw [show escapeChar '\x0c' = ['\\', 'f'] from rfl]
                  show parseStringBody ('\\' :: 'f' :: (escapeChars cs ++ rest)) = _
                  unfold parseStringBody
                  simp [ih]
                · by_cases h8 : c.toNat < 32
                  · rw [escapeChar, if_neg h1, if_neg h2, if_neg h3, if_neg h4,
                      if_neg h5, if_neg h6, if_neg h7, if_pos h8]
                    have hdiv : c.toNat / 16 < 16 := by omega
                    have hmod : c.toNat % 16 < 16 := Nat.mod_lt _ (by norm_num)
                    simp only [List.cons_append, List.nil_append]
                    unfold parseStringBody
                    simp only [show hexVal '0' = some 0 from rfl,
                      hexVal_hexDigitChar _ hdiv, hexVal_hexDigitChar _ hmod, ih]
                    have harith : ((0 * 16 + 0) * 16 + c.toNat / 16) * 16 + c.toNat % 16 =
                        c.toNat := by omega
                    rw [harith, Char.ofNat_toNat]
                    simp
                  · rw [escapeChar, if_neg h1, if_neg h2, if_neg h3, if_neg h4,
                      if_neg h5, if_neg h6, if_neg h7, if_neg h8]
                    rw [show ([c] ++ (escapeChars cs ++ rest) : List Char) =
                      c :: (escapeChars cs ++ rest) from rfl]
                    unfold parseStringBody
                    rw [if_neg h1, if_neg h2, if_neg (by omega : ¬ c.toNat < 32), ih]
                    rfl

/-- Every printed value starts with a non-whitespace character that is
not a closing bracket. -/
theorem printJson_head (d : Nat) (j : Json) :
    ∃ c cs, printJson d j = c :: cs ∧ isJsonWs c = false ∧ c ≠ ']' ∧ c ≠ '\x7d' := by
  cases j with
  | num n =>
    show ∃ c cs, intChars n = c :: cs ∧ _
    by_cases hn : n < 0
    · refine ⟨'-', _, by rw [intChars, if_pos hn], ?_, ?_, ?_⟩ <;> decide
    · rw [intChars, if_neg hn]
      obtain ⟨c, cs, hc⟩ : ∃ c cs, natChars n.natAbs = c :: cs := by
        cases hcc : natChars n.natAbs with
        | nil => exact absurd hcc (natChars_ne_nil _)
        | cons c cs => exact ⟨c, cs, rfl⟩
      have hcd : isDigitChar c = true :=
        natChars_digits _ c (by rw [hc]; exact List.mem_cons_self _ _)
      obtain ⟨hws, _, _, _, _, _, _, _, hbr, hbc⟩ := digit_head_facts hcd
      exact ⟨c, cs, hc, hws, hbr, hbc⟩
  | bool b => cases b <;> (refine ⟨_, _, rfl, ?_, ?_, ?_⟩ <;> decide)
  | arr xs => cases xs <;> (refine ⟨_, _, rfl, ?_, ?_, ?_⟩ <;> decide)
  | obj kvs => cases kvs <;> (refine ⟨_, _, rfl, ?_, ?_, ?_⟩ <;> decide)
  | null => refine ⟨_, _, rfl, ?_, ?_, ?_⟩ <;> decide
  | str s => refine ⟨_, _, rfl, ?_, ?_, ?_⟩ <;> decide

/-- Round-trip core: with enough fuel the three parsers read back
exactly what the three printers emitted, at any nesting depth and with
any legal follower left intact. -/
theorem parse_print_aux : ∀ fuel : Nat,
    (∀ j d rest, jsize j ≤ fuel → restHeadOk rest = true →
      parseVal fuel (printJson d j ++ rest) = some (j, rest)) ∧
    (∀ x xs d e rest, jsizeList (x :: xs) ≤ fuel →
      parseItems fuel
        (printJson d x ++ (printItemsTail d xs ++ ('\n' :: (indChars e ++ (']' :: rest))))) =
        some (x :: xs, rest)) ∧
    (∀ kv kvs d e rest, jsizeKVs (kv :: kvs) ≤ fuel →
      parseMembers fuel
        (printKV d kv ++ (printKVsTail d kvs ++ ('\n' :: (indChars e ++ ('\x7d' :: rest))))) =
        some (kv :: kvs, rest)) := by
  intro fuel
  induction fuel with
  | zero =>
    refine ⟨?_, ?_, ?_⟩
    · intro j d rest hsz _
      have := jsize_pos j
      omega
    · intro x xs d e rest hsz
      simp only [jsizeList] at hsz
      have := jsize_pos x
      have := jsizeList_pos xs
      omega
    · intro kv kvs d e rest hsz
      simp only [jsizeKVs] at hsz
      have := jsize_pos kv.2
      have := jsizeKVs_pos kvs
      omega
  | succ fuel ih =>
    obtain ⟨ihP, ihQ, ihR⟩ := ih
    refine ⟨?_, ?_, ?_⟩
    · intro j d rest hsz hrest
      cases j with
      | null =>
        show parseVal (fuel + 1) (['n', 'u', 'l', 'l'] ++ rest) = _
        unfold parseVal
        simp [skipWs, isJsonWs, expectLit]
      | bool b =>
        cases b with
        | true =>
          show parseVal (fuel + 1) (['t', 'r', 'u', 'e'] ++ rest) = _
          unfold parseVal
          simp [skipWs, isJsonWs, expectLit]
        | false =>
          show parseVal (fuel + 1) (['f', 'a', 'l', 's', 'e'] ++ rest) = _
          unfold parseVal
          simp [skipWs, isJsonWs, expectLit]
      | num n =>
        show parseVal (fuel + 1) (intChars n ++ rest) = _
        have hhead : ∃ c cs, intChars n = c :: cs ∧ isJsonWs c = false ∧
            (decide (c = '-') || isDigitChar c) = true ∧
            c ≠ 'n' ∧ c ≠ 't' ∧ c ≠ 'f' ∧ c ≠ '"' ∧ c ≠ '[' ∧ c ≠ '\x7b' := by
          by_cases hn : n < 0
          · exact ⟨'-', _, by rw [intChars, if_pos hn], by decide, by decide, by decide,
              by decide, by decide, by decide, by decide, by decide⟩
          · rw [intChars, if_neg hn]
            obtain ⟨c, cs, hc⟩ : ∃ c cs, natChars n.natAbs = c :: cs := by
              cases hcc : natChars n.natAbs with
              | nil => exact absurd hcc (natChars_ne_nil _)
              | cons c cs => exact ⟨c, cs, rfl⟩
            have hcd : isDigitChar c = true :=
              natChars_digits _ c (by rw [hc]; exact List.mem_cons_self _ _)
            obtain ⟨hws, _, hn2, ht2, hf2, hq2, hbr2, hbc2, _, _⟩ := digit_head_facts hcd
            exact ⟨c, cs, hc, hws, by simp [hcd], hn2, ht2, hf2, hq2, hbr2, hbc2⟩
        obtain ⟨c, cs, hc, hws, hnum, hn2, ht2, hf2, hq2, hbr2, hbc2⟩ := hhead
        rw [hc, List.cons_append]
        unfold parseVal
        rw [skipWs_cons_not _ hws]
        dsimp only
        rw [if_neg hn2, if_neg ht2, if_neg hf2, if_neg hq2, if_neg hbr2, if_neg hbc2,
          if_pos hnum]
        rw [← List.cons_append, ← hc]
        exact parseNumber_intChars n rest hrest
      | str s =>
        show parseVal (fuel + 1) ('"' :: (escapeChars s.data ++ rest)) = _
        unfold parseVal
        simp [skipWs, isJsonWs, parseStringBody_escape]
      | arr xs =>
        cases xs with
        | nil =>
          show parseVal (fuel + 1) (['[', ']'] ++ rest) = _
          unfold parseVal
          simp [skipWs, isJsonWs]
        | cons x t =>
          show parseVal (fuel + 1)
            (('[' :: '\n' :: (indChars (d + 1) ++ printJson (d + 1) x ++
              printItemsTail (d + 1) t ++ '\n' :: (indChars d ++ [']']))) ++ rest) = _
          simp only [List.cons_append, List.append_assoc, List.nil_append,
            List.singleton_append]
          unfold parseVal
          rw [skipWs_cons_not _ (by decide)]
          try dsimp only
          rw [if_neg (by decide : ¬ ('[' : Char) = 'n'),
            if_neg (by decide : ¬ ('[' : Char) = 't'),
            if_neg (by decide : ¬ ('[' : Char) = 'f'),
            if_neg (by decide : ¬ ('[' : Char) = '"'),
            if_pos (rfl : ('[' : Char) = '[')]
          rw [show skipWs ('\n' :: (indChars (d + 1) ++ (printJson (d + 1) x ++
              (printItemsTail (d + 1) t ++ ('\n' :: (indChars d ++ (']' :: rest))))))) =
            skipWs (indChars (d + 1) ++ (printJson (d + 1) x ++
              (printItemsTail (d + 1) t ++ ('\n' :: (indChars d ++ (']' :: rest))))))
            from rfl]
          rw [skipWs_append_ws _ (indChars_ws (d + 1))]
          obtain ⟨c, cs, hc, hws, hbr, hbc⟩ := printJson_head (d + 1) x
          rw [hc, List.cons_append, skipWs_cons_not _ hws]
          split
          · rename_i r heq
            rw [List.cons.injEq] at heq
            exact absurd heq.1 hbr
          · rw [← List.cons_append, ← hc]
            have hsz2 : jsizeList (x :: t) ≤ fuel := by
              simp only [jsize] at hsz
              omega
            rw [ihQ x t (d + 1) d rest hsz2]
            rfl
      | obj kvs =>
        cases kvs with
        | nil =>
          show parseVal (fuel + 1) (['\x7b', '\x7d'] ++ rest) = _
          unfold parseVal
          simp [skipWs, isJsonWs]
        | cons kv t =>
          show parseVal (fuel + 1)
            (('\x7b' :: '\n' :: (indChars (d + 1) ++ printKV (d + 1) kv ++
              printKVsTail (d + 1) t ++ '\n' :: (indChars d ++ ['\x7d']))) ++ rest) = _
          simp only [List.cons_append, List.append_assoc, List.nil_append,
            List.singleton_append]
          unfold parseVal
          rw [skipWs_cons_not _ (by decide)]
          try dsimp only
          rw [if_neg (by decide : ¬ ('\x7b' : Char) = 'n'),
            if_neg (by decide : ¬ ('\x7b' : Char) = 't'),
            if_neg (by decide : ¬ ('\x7b' : Char) = 'f'),
            if_neg (by decide : ¬ ('\x7b' : Char) = '"'),
            if_neg (by decide : ¬ ('\x7b' : Char) = '['),
            if_pos (rfl : ('\x7b' : Char) = '\x7b')]
          rw [show skipWs ('\n' :: (indChars (d + 1) ++ (printKV (d + 1) kv ++
              (printKVsTail (d + 1) t ++ ('\n' :: (indChars d ++ ('\x7d' :: rest))))))) =
            skipWs (indChars (d + 1) ++ (printKV (d + 1) kv ++
              (printKVsTail (d + 1) t ++ ('\n' :: (indChars d ++ ('\x7d' :: rest))))))
            from rfl]
          rw [skipWs_append_ws _ (indChars_ws (d + 1))]
          obtain ⟨k, v⟩ := kv
          have hsz2 : jsizeKVs ((k, v) :: t) ≤ fuel := by
            simp only [jsize] at hsz
            omega
          have hR := ihR (k, v) t (d + 1) d rest hsz2
          simp only [printKV, escapeString, List.append_assoc, List.cons_append] at hR ⊢
          rw [skipWs_cons_not _ (by decide)]
          split
          · rename_i r heq
            rw [List.cons.injEq] at heq
            exact absurd heq.1 (by decide)
          · rw [hR]
            rfl
    · intro x xs d e rest hsz
      have hszx : jsize x ≤ fuel := by
        simp only [jsizeList] at hsz
        have := jsizeList_pos xs
        omega
      have hrest1 : restHeadOk (printItemsTail d xs ++
          ('\n' :: (indChars e ++ (']' :: rest)))) = true := by
        cases xs with
        | nil => rfl
        | cons y ys => rfl
      unfold parseItems
      rw [ihP x d _ hszx hrest1]
      try dsimp only
      cases xs with
      | nil =>
        rw [show printItemsTail d ([] : List Json) ++
            ('\n' :: (indChars e ++ (']' :: rest))) =
          '\n' :: (indChars e ++ (']' :: rest)) from rfl]
        rw [show skipWs ('\n' :: (indChars e ++ (']' :: rest))) =
          skipWs (indChars e ++ (']' :: rest)) from rfl]
        rw [skipWs_append_ws _ (indChars_ws e), skipWs_cons_not _ (by decide)]
        simp
      | cons y ys =>
        have hszy : jsizeList (y :: ys) ≤ fuel := by
          simp only [jsizeList] at hsz ⊢
          have := jsize_pos x
          omega
        have hwchunk : ∀ c ∈ ('\n' :: indChars d), isJsonWs c = true := by
          intro c hc
          rcases List.mem_cons.mp hc with rfl | hc
          · decide
          · exact indChars_ws d c hc
        rw [show printItemsTail d (y :: ys) ++ ('\n' :: (indChars e ++ (']' :: rest))) =
          ',' :: (('\n' :: indChars d) ++ (printJson d y ++ (printItemsTail d ys ++
            ('\n' :: (indChars e ++ (']' :: rest)))))) from by
          simp [printItemsTail, List.append_assoc]]
        rw [skipWs_cons_not _ (by decide)]
        split
        · rename_i r2 heq
          rw [List.cons.injEq] at heq
          rw [← heq.2]
          rw [parseItems_ws fuel _ hwchunk]
          rw [ihQ y ys d e rest hszy]
          rfl
        · rename_i r2 heq
          rw [List.cons.injEq] at heq
          exact absurd heq.1 (by decide)
        · rename_i hne1 hne2
          exact absurd rfl (hne1 _)
    · intro kv kvs d e rest hsz
      obtain ⟨k, v⟩ := kv
      have hszv : jsize v ≤ fuel := by
        simp only [jsizeKVs] at hsz
        have := jsizeKVs_pos kvs
        omega
      have hrest1 : restHeadOk (printKVsTail d kvs ++
          ('\n' :: (indChars e ++ ('\x7d' :: rest)))) = true := by
        cases kvs with
        | nil => rfl
        | cons kv2 ks => rfl
      unfold parseMembers
      simp only [printKV, escapeString, List.append_assoc, List.cons_append]
      rw [skipWs_cons_not _ (by decide)]
      split
      · rename_i r heq
        rw [List.cons.injEq] at heq
        rw [← heq.2]
        rw [parseStringBody_escape]
        try dsimp only
        rw [skipWs_cons_not _ (by decide)]
        split
        · rename_i r2 heq2
          rw [List.cons.injEq] at heq2
          rw [← heq2.2]
          rw [show (' ' :: (printJson d v ++ (printKVsTail d kvs ++
              ('\n' :: (indChars e ++ ('\x7d' :: rest))))) : List Char) =
            [' '] ++ (printJson d v ++ (printKVsTail d kvs ++
              ('\n' :: (indChars e ++ ('\x7d' :: rest))))) from rfl]
          rw [parseVal_ws fuel _ (by decide : ∀ c ∈ ([' '] : List Char), isJsonWs c = true)]
          rw [ihP v d _ hszv hrest1]
          try dsimp only
          cases kvs with
          | nil =>
            rw [show printKVsTail d ([] : List (String × Json)) ++
                ('\n' :: (indChars e ++ ('\x7d' :: rest))) =
              '\n' :: (indChars e ++ ('\x7d' :: rest)) from rfl]
            rw [show skipWs ('\n' :: (indChars e ++ ('\x7d' :: rest))) =
              skipWs (indChars e ++ ('\x7d' :: rest)) from rfl]
            rw [skipWs_append_ws _ (indChars_ws e), skipWs_cons_not _ (by decide)]
            simp
          | cons kv2 ks =>
            obtain ⟨k2, v2⟩ := kv2
            have hszk2 : jsizeKVs ((k2, v2) :: ks) ≤ fuel := by
              simp only [jsizeKVs] at hsz ⊢
              have := jsize_pos v
              omega
            have hwchunk : ∀ c ∈ ('\n' :: indChars d), isJsonWs c = true := by
              intro c hc
              rcases List.mem_cons.mp hc with rfl | hc
              · decide
              · exact indChars_ws d c hc
            have hK := ihR (k2, v2) ks d e rest hszk2
            simp only [printKV, escapeString, List.append_assoc, List.cons_append] at hK
            rw [show printKVsTail d ((k2, v2) :: ks) ++
                ('\n' :: (indChars e ++ ('\x7d' :: rest))) =
              ',' :: (('\n' :: indChars d) ++ ('"' :: (escapeChars k2.data ++
                (':' :: (' ' :: (printJson d v2 ++ (printKVsTail d ks ++
                  ('\n' :: (indChars e ++ ('\x7d' :: rest)))))))))) from by
              simp [printKVsTail, printKV, escapeString, List.append_assoc]]
            rw [skipWs_cons_not _ (by decide)]
            split
            · rename_i r4 heq4
              rw [List.cons.injEq] at heq4
              rw [← heq4.2]
              rw [parseMembers_ws fuel _ hwchunk]
              rw [hK]
              rfl
            · rename_i r4 heq4
              rw [List.cons.injEq] at heq4
              exact absurd heq4.1 (by decide)
            · rename_i hne1 hne2
              exact absurd rfl (hne1 _)
        · rename_i hne
          exact absurd rfl (hne _)
      · rename_i hne
        exact absurd rfl (hne _)

mutual

/-- A value's fuel need is bounded by its printed length. -/
theorem jsize_le_printJson (d : Nat) (j : Json) : jsize j ≤ (printJson d j).length := by
  cases j with
  | null => simp [jsize, printJson]
  | bool b => cases b <;> simp [jsize, printJson]
  | num n =>
    have h := intChars_ne_nil n
    have : 0 < (intChars n).length := List.length_pos.mpr h
    simp only [jsize, printJson]
    omega
  | str s => simp [jsize, printJson, escapeString]
  | arr xs =>
    cases xs with
    | nil => simp [jsize, jsizeList, printJson]
    | cons x t =>
      have hA := jsize_le_printJson (d + 1) x
      have hB := jsizeList_le_printItemsTail (d + 1) t
      simp only [jsize, jsizeList, printJson, List.length_cons, List.length_append,
        indChars, List.length_replicate]
      omega
  | obj kvs =>
    cases kvs with
    | nil => simp [jsize, jsizeKVs, printJson]
    | cons kv t =>
      obtain ⟨k, v⟩ := kv
      have hA := jsize_le_printJson (d + 1) v
      have hB := jsizeKVs_le_printKVsTail (d + 1) t
      simp only [jsize, jsizeKVs, printJson, printKV, escapeString, List.length_cons,
        List.length_append, indChars, List.length_replicate]
      omega

/-- An element list's fuel need is bounded by its printed tail length
plus one. -/
theorem jsizeList_le_printItemsTail (d : Nat) (xs : List Json) :
    jsizeList xs ≤ (printItemsTail d xs).length + 1 := by
  cases xs with
  | nil => simp [jsizeList, printItemsTail]
  | cons x t =>
    have hA := jsize_le_printJson d x
    have hB := jsizeList_le_printItemsTail d t
    simp only [jsizeList, printItemsTail, List.length_cons, List.length_append,
      indChars, List.length_replicate]
    omega

/-- A member list's fuel need is bounded by its printed tail length plus
one. -/
theorem jsizeKVs_le_printKVsTail (d : Nat) (kvs : List (String × Json)) :
    jsizeKVs kvs ≤ (printKVsTail d kvs).length + 1 := by
  cases kvs with
  | nil => simp [jsizeKVs, printKVsTail]
  | cons kv t =>
    obtain ⟨k, v⟩ := kv
    have hA := jsize_le_printJson d v
    have hB := jsizeKVs_le_printKVsTail d t
    simp only [jsizeKVs, printKVsTail, printKV, escapeString, List.length_cons,
      List.length_append, indChars, List.length_replicate]
    omega

end

/-- The parser reads back exactly what the pretty-printer wrote: the
round-trip law for the `json.loads` and `json.dumps(..., indent=2)`
models, for every JSON value. -/
theorem json_loads_dumps (j : Json) : json_loads (json_dumps_indent2 j) = some j := by
  have hlen : jsize j ≤ 2 * (printJson 0 j).length + 2 := by
    have := jsize_le_printJson 0 j
    omega
  have h := (parse_print_aux (2 * (printJson 0 j).length + 2)).1 j 0 [] hlen rfl
  rw [List.append_nil] at h
  unfold json_loads json_dumps_indent2
  rw [show (String.mk (printJson 0 j)).data = printJson 0 j from rfl]
  rw [h]
  rfl

/-- C9: for every criteria list the validator accepts, serializing with
the pretty-printed 2-space-indent JSON export and re-parsing yields a
structurally identical criteria list. -/
theorem C9_export_roundtrip (criteria : List Json)
    (hv : validate_criteria criteria = .ok criteria) :
    json_loads (json_dumps_indent2 (.arr criteria)) = some (.arr criteria) :=
  json_loads_dumps (.arr criteria)

/-- Witness for C9 at a concrete input: the two sample criteria
round-trip through the export. -/
theorem C9_export_roundtrip_witness :
    json_loads (json_dumps_indent2 (.arr [sampleCriterion, sampleCriterion2])) =
      some (.arr [sampleCriterion, sampleCriterion2]) :=
  C9_export_roundtrip [sampleCriterion, sampleCriterion2] rfl

/-- C7: the prompt is exactly the fixed header, the verbatim job
description, the fixed middle, the verbatim user guidance and the fixed
footer — so it embeds `jd_text` and `user_guidance` verbatim, and two
calls with the same inputs produce character-identical text.  The
builder is a total function (it raises nothing) and ignores `job_role`
entirely. -/
theorem C7_prompt_deterministic_verbatim (job_role jd_text user_guidance : String) :
    buildPrompt job_role jd_text user_guidance =
      promptHeader ++ jd_text ++ promptMiddle ++ user_guidance ++ promptFooter ∧
    ∀ r2 j2 g2, r2 = job_role → j2 = jd_text → g2 = user_guidance →
      buildPrompt r2 j2 g2 = buildPrompt job_role jd_text user_guidance := by
  refine ⟨rfl, ?_⟩
  intro r2 j2 g2 h1 h2 h3
  rw [h1, h2, h3]

/-- Witness for C7 at concrete inputs. -/
theorem C7_prompt_deterministic_verbatim_witness :
    buildPrompt "Engineer" "JD text" "guidance" =
      promptHeader ++ "JD text" ++ promptMiddle ++ "guidance" ++ promptFooter :=
  (C7_prompt_deterministic_verbatim "Engineer" "JD text" "guidance").1
